import Mathlib

/-!
# A verification development for the litecli SQL shell

This file gives a shallow embedding, in Lean 4, of the core components of the
litecli interactive SQL shell, and proves properties of that embedding:

* the completion candidate engine (`litecli/sqlcompleter.py`): the metadata
  index (`SQLCompleter`), its `extend_*` builders, name escaping, scoped-column
  resolution, and the fuzzy/prefix matching primitive `find_matches`;
* the metadata refresh coordinator (`litecli/completion_refresher.py`): the
  ordered refresher steps, the background refresh loop with its
  restart-from-the-top flag, and the at-most-one-active-refresh discipline;
* the special-command registry and dispatcher
  (`litecli/packages/special/main.py`): `parse_special_command`,
  `register_special_command`, and the `execute` lookup;
* favorite-query invocation (`litecli/packages/special/iocommands.py`):
  `execute_favorite_query` and `subst_favorite_query_args`.

Conventions of the embedding:

* Python dicts are association lists (`List (k × v)`); assignment to an
  existing key keeps its position (Python dicts preserve insertion order).
* Python sets are duplicate-free lists in first-insertion order; adding an
  element already present is a no-op.
* Python string methods `lower`/`upper`/`islower` are modelled on their ASCII
  behaviour (every string handled by the claims is ASCII).
* A Python iterable that may raise mid-iteration is an `Iter α`: either a full
  list of yielded items, or a raising iterable together with the items yielded
  before the exception.
* A Python function that may raise is `Except` valued; for the mutating
  methods of the completer the error value carries the state at the moment the
  exception escapes, mirroring Python's in-place partial mutation.
-/

set_option maxRecDepth 8192

namespace Litecli

/-! ## Generic helpers: association lists, sets-as-lists, iterables -/

/-- Lookup in an association list (Python `d[k]` / `k in d`). -/
def alistGet {β : Type} (k : String) : List (String × β) → Option β
  | [] => none
  | (k', v) :: rest => if k = k' then some v else alistGet k rest

/-- Assignment `d[k] = v` on an association list: an existing key keeps its
position (Python dicts preserve the original insertion order), a new key is
appended. -/
def alistPut {β : Type} (k : String) (v : β) : List (String × β) → List (String × β)
  | [] => [(k, v)]
  | (k', v') :: rest => if k = k' then (k, v) :: rest else (k', v') :: alistPut k v rest

/-- `s.add(x)` on a Python set modelled as a first-insertion-ordered list. -/
def setAdd (xs : List String) (x : String) : List String :=
  if x ∈ xs then xs else xs ++ [x]

/-- `s.update(it)` on a Python set modelled as a list. -/
def setUpdate (xs : List String) (ys : List String) : List String :=
  ys.foldl setAdd xs

/-- A Python iterable consumed by the completer: either it yields `xs` and
finishes, or it raises an exception mid-iteration after yielding `pre`. -/
inductive Iter (α : Type) where
  | ok (xs : List α)
  | fails (pre : List α)
deriving DecidableEq, Repr

/-! ## ASCII models of Python string methods -/

/-- ASCII model of `str.lower` on a character. -/
def lowerChar (c : Char) : Char :=
  if 'A' ≤ c ∧ c ≤ 'Z' then Char.ofNat (c.toNat + 32) else c

/-- ASCII model of `str.upper` on a character. -/
def upperChar (c : Char) : Char :=
  if 'a' ≤ c ∧ c ≤ 'z' then Char.ofNat (c.toNat - 32) else c

/-- ASCII model of `str.lower`. -/
def strLower (s : String) : String := String.mk (s.data.map lowerChar)

/-- ASCII model of `str.upper`. -/
def strUpper (s : String) : String := String.mk (s.data.map upperChar)

/-- Characters stripped by Python's no-argument `str.strip()`. -/
def pySpace (c : Char) : Bool := c.isWhitespace

/-- Strip characters satisfying `p` from both ends of a character list. -/
def stripCharsL (p : Char → Bool) (l : List Char) : List Char :=
  ((l.dropWhile p).reverse.dropWhile p).reverse

/-- Python `str.strip()` (whitespace from both ends). -/
def pyStrip (s : String) : String := String.mk (stripCharsL pySpace s.data)

/-- Python `str.rstrip(cs)`. -/
def pyRstripChars (cs : List Char) (s : String) : String :=
  String.mk ((s.data.reverse.dropWhile (fun c => c ∈ cs)).reverse)

/-- Python `s.partition(" ")`: the part before the first space and the part
after it (the empty string when there is no space). -/
def pyPartitionSpace (s : String) : String × String :=
  let rec go : List Char → List Char × List Char
    | [] => ([], [])
    | c :: rest =>
      if c = ' ' then ([], rest)
      else
        let (a, b) := go rest
        (c :: a, b)
  let (a, b) := go s.data
  (String.mk a, String.mk b)

/-- Split a character list on a separator character (the separators are
dropped), as in Python `str.split(sep)`. -/
def splitOnCharL (sep : Char) : List Char → List (List Char)
  | [] => [[]]
  | c :: rest =>
    let r := splitOnCharL sep rest
    if c = sep then [] :: r
    else
      match r with
      | [] => [[c]]
      | piece :: more => (c :: piece) :: more

/-- Python `sub in s` for a single-character `sub`. -/
def strHasChar (s : String) (c : Char) : Bool := s.data.contains c

/-- Number of occurrences of a character in a string. -/
def strCountChar (s : String) (c : Char) : Nat := s.data.count c

/-! ## litecli/sqlcompleter.py — the completion candidate engine -/

/-- `SQLCompleter.keywords` (verbatim from the source). -/
def keywords : List String :=
  ["ABORT", "ACTION", "ADD", "AFTER", "ALL", "ALTER", "ANALYZE", "AND", "AS",
   "ASC", "ATTACH", "AUTOINCREMENT", "BEFORE", "BEGIN", "BETWEEN", "BIGINT",
   "BLOB", "BOOLEAN", "BY", "CASCADE", "CASE", "CAST", "CHARACTER", "CHECK",
   "CLOB", "COLLATE", "COLUMN", "COMMIT", "CONFLICT", "CONSTRAINT", "CREATE",
   "CROSS", "CURRENT", "CURRENT_DATE", "CURRENT_TIME", "CURRENT_TIMESTAMP",
   "DATABASE", "DATE", "DATETIME", "DECIMAL", "DEFAULT", "DEFERRABLE",
   "DEFERRED", "DELETE", "DETACH", "DISTINCT", "DO", "DOUBLE PRECISION",
   "DOUBLE", "DROP", "EACH", "ELSE", "END", "ESCAPE", "EXCEPT", "EXCLUSIVE",
   "EXISTS", "EXPLAIN", "FAIL", "FILTER", "FLOAT", "FOLLOWING", "FOR",
   "FOREIGN", "FROM", "FULL", "GLOB", "GROUP", "HAVING", "IF", "IGNORE",
   "IMMEDIATE", "IN", "INDEX", "INDEXED", "INITIALLY", "INNER", "INSERT",
   "INSTEAD", "INT", "INT2", "INT8", "INTEGER", "INTERSECT", "INTO", "IS",
   "ISNULL", "JOIN", "KEY", "LEFT", "LIKE", "LIMIT", "MATCH", "MEDIUMINT",
   "NATIVE CHARACTER", "NATURAL", "NCHAR", "NO", "NOT", "NOTHING", "NULL",
   "NULLS FIRST", "NULLS LAST", "NUMERIC", "NVARCHAR", "OF", "OFFSET", "ON",
   "OR", "ORDER BY", "OUTER", "OVER", "PARTITION", "PLAN", "PRAGMA",
   "PRECEDING", "PRIMARY", "QUERY", "RAISE", "RANGE", "REAL", "RECURSIVE",
   "REFERENCES", "REGEXP", "REINDEX", "RELEASE", "RENAME", "REPLACE",
   "RESTRICT", "RIGHT", "ROLLBACK", "ROW", "ROWS", "SAVEPOINT", "SELECT",
   "SET", "SMALLINT", "TABLE", "TEMP", "TEMPORARY", "TEXT", "THEN", "TINYINT",
   "TO", "TRANSACTION", "TRIGGER", "UNBOUNDED", "UNION", "UNIQUE",
   "UNSIGNED BIG INT", "UPDATE", "USING", "VACUUM", "VALUES", "VARCHAR",
   "VARYING CHARACTER", "VIEW", "VIRTUAL", "WHEN", "WHERE", "WINDOW", "WITH",
   "WITHOUT"]

/-- `SQLCompleter.functions` (verbatim from the source). -/
def functions : List String :=
  ["ABS", "AVG", "CHANGES", "CHAR", "COALESCE", "COUNT", "CUME_DIST", "DATE",
   "DATETIME", "DENSE_RANK", "GLOB", "GROUP_CONCAT", "HEX", "IFNULL", "INSTR",
   "JSON", "JSON_ARRAY", "JSON_ARRAY_LENGTH", "JSON_EACH", "JSON_EXTRACT",
   "JSON_GROUP_ARRAY", "JSON_GROUP_OBJECT", "JSON_INSERT", "JSON_OBJECT",
   "JSON_PATCH", "JSON_QUOTE", "JSON_REMOVE", "JSON_REPLACE", "JSON_SET",
   "JSON_TREE", "JSON_TYPE", "JSON_VALID", "JULIANDAY", "LAG",
   "LAST_INSERT_ROWID", "LENGTH", "LIKELIHOOD", "LIKELY", "LOAD_EXTENSION",
   "LOWER", "LTRIM", "MAX", "MIN", "NTILE", "NULLIF", "PERCENT_RANK",
   "PRINTF", "QUOTE", "RANDOM", "RANDOMBLOB", "RANK", "REPLACE", "ROUND",
   "ROW_NUMBER", "RTRIM", "SOUNDEX", "SQLITE_COMPILEOPTION_GET",
   "SQLITE_COMPILEOPTION_USED", "SQLITE_OFFSET", "SQLITE_SOURCE_ID",
   "SQLITE_VERSION", "STRFTIME", "SUBSTR", "SUM", "TIME", "TOTAL",
   "TOTAL_CHANGES", "TRIM"]

/-- Split a character list into maximal space-free words, as Python's
`str.split()` does for the single-space-separated keyword phrases. -/
def wordsOfL : List Char → List (List Char)
  | [] => []
  | c :: rest =>
    if c = ' ' then wordsOfL rest
    else
      match wordsOfL rest with
      | [] => [[c]]
      | w :: ws =>
        match rest with
        | [] => [[c]]
        | d :: _ => if d = ' ' then [c] :: w :: ws else (c :: w) :: ws

/-- `self.reserved_words`: every whitespace-separated word of every keyword
phrase (`for x in self.keywords: self.reserved_words.update(x.split())`). -/
def reserved_words : List String :=
  keywords.foldl (fun acc x => setUpdate acc ((wordsOfL x.data).map String.mk)) []

/-- The anchored regex `^[_a-zA-Z][_a-zA-Z0-9\$]*$` (`self.name_pattern`). -/
def nameStartChar (c : Char) : Bool :=
  c = '_' ∨ ('a' ≤ c ∧ c ≤ 'z') ∨ ('A' ≤ c ∧ c ≤ 'Z')

/-- Tail character class of `self.name_pattern`. -/
def nameTailChar (c : Char) : Bool :=
  nameStartChar c ∨ ('0' ≤ c ∧ c ≤ '9') ∨ c = '$'

/-- `self.name_pattern.match(name)`: the full anchored match. -/
def nameMatches (name : String) : Bool :=
  match name.data with
  | [] => false
  | c :: cs => nameStartChar c && cs.all nameTailChar

/-- `SQLCompleter.escape_name`: wrap the name in backticks when it is nonempty
and fails the identifier pattern, or its upper-casing is a reserved word or a
built-in function name. -/
def escape_name (name : String) : String :=
  if name ≠ "" ∧
      (¬ nameMatches name ∨ strUpper name ∈ reserved_words ∨ strUpper name ∈ functions) then
    "`" ++ name ++ "`"
  else
    name

/-- `SQLCompleter.unescape_name`: strip one pair of surrounding double quotes. -/
def unescape_name (name : String) : String :=
  match name.data with
  | [] => name
  | c :: cs =>
    if c = '"' ∧ (c :: cs).getLast? = some '"' ∧ cs ≠ [] then
      String.mk (cs.dropLast)
    else name

/-- `SQLCompleter.escaped_names`. -/
def escaped_names (names : List String) : List String := names.map escape_name

/-- Which of the two relation kinds of `dbmetadata` an `extend_relations` /
`extend_columns` call targets (`kind` is `"tables"` or `"views"`). -/
inductive RelKind where
  | tables
  | views
deriving DecidableEq, Repr

/-- The mutable state of a `SQLCompleter` instance that the claims concern:
the special-command names, the database-name list, the current database name,
`dbmetadata` (tables / views / functions) and the `all_completions` set. -/
structure CompleterState where
  special_commands : List String
  databases : List String
  dbname : Option String
  tables : List (String × List (String × List String))
  views : List (String × List (String × List String))
  functionsMeta : List (String × List String)
  all_completions : List String
deriving DecidableEq, Repr

/-- Read the `dbmetadata[kind]` dict for a relation kind. -/
def CompleterState.relMeta (st : CompleterState) : RelKind → List (String × List (String × List String))
  | .tables => st.tables
  | .views => st.views

/-- Write the `dbmetadata[kind]` dict for a relation kind. -/
def CompleterState.setRelMeta (st : CompleterState) : RelKind → List (String × List (String × List String)) → CompleterState
  | .tables, m => { st with tables := m }
  | .views, m => { st with views := m }

/-- `SQLCompleter.reset_completions`: databases, dbname, dbmetadata and
`all_completions` are reset; `special_commands` is untouched. -/
def reset_completions (st : CompleterState) : CompleterState :=
  { st with
    databases := []
    dbname := some ""
    tables := []
    views := []
    functionsMeta := []
    all_completions := setUpdate [] (keywords ++ functions) }

/-- The state of a freshly constructed `SQLCompleter` (the constructor ends in
`self.reset_completions()`). -/
def initCompleter : CompleterState :=
  reset_completions
    { special_commands := []
      databases := []
      dbname := some ""
      tables := []
      views := []
      functionsMeta := []
      all_completions := [] }

/-- `SQLCompleter.set_dbname`. -/
def set_dbname (st : CompleterState) (dbname : Option String) : CompleterState :=
  { st with dbname := dbname }

/-- Result type of the mutating completer methods: on an uncaught Python
exception the error carries the exception name and the state at the moment it
escapes. -/
abbrev ExceptSt := Except (String × CompleterState) CompleterState

/-- `SQLCompleter.extend_special_commands`: a bare `list.extend` of the source
iterable, with no exception handling — a raising iterable propagates, leaving
the items yielded so far appended. -/
def extend_special_commands (st : CompleterState) (it : Iter String) : ExceptSt :=
  match it with
  | .ok xs => .ok { st with special_commands := st.special_commands ++ xs }
  | .fails pre =>
    .error ("exception from source iterable", { st with special_commands := st.special_commands ++ pre })

/-- `SQLCompleter.extend_database_names`: a bare `list.extend`, with no
exception handling — a raising iterable propagates. -/
def extend_database_names (st : CompleterState) (it : Iter String) : ExceptSt :=
  match it with
  | .ok xs => .ok { st with databases := st.databases ++ xs }
  | .fails pre =>
    .error ("exception from source iterable", { st with databases := st.databases ++ pre })

/-- `SQLCompleter.extend_schemata`: `None` is ignored; otherwise every dict in
`dbmetadata` gets `metadata[schema] = dict()` and `all_completions` is updated
with the schema *string* — i.e. with its individual characters, since
`set.update` iterates its argument. -/
def extend_schemata (st : CompleterState) (schema : Option String) : CompleterState :=
  match schema with
  | none => st
  | some s =>
    { st with
      tables := alistPut s [] st.tables
      views := alistPut s [] st.views
      functionsMeta := alistPut s [] st.functionsMeta
      all_completions := setUpdate st.all_completions (s.data.map (fun c => String.mk [c])) }

/-- The `try: metadata[self.dbname][relname[0]] = ["*"] except KeyError: log`
statement of the `extend_relations` loop: record the relation with the `["*"]`
placeholder column list under the current database, or leave the state alone
when the schema (or a current database) is missing. -/
def relInsert (kind : RelKind) (st : CompleterState) (rel : String) : CompleterState :=
  match st.dbname with
  | none => st
  | some d =>
    match alistGet d (st.relMeta kind) with
    | none => st
    | some inner => st.setRelMeta kind (alistPut d (alistPut rel ["*"] inner) (st.relMeta kind))

/-- One iteration of the `extend_relations` loop body: `relInsert`, then
`self.all_completions.add(relname[0])`.  An empty row raises `IndexError`
at `relname[0]`, which the `except KeyError` clause does not catch. -/
def relStep (kind : RelKind) (st : CompleterState) (row : List String) : ExceptSt :=
  match row with
  | [] => .error ("IndexError", st)
  | rel :: _ =>
    let st1 := relInsert kind st rel
    .ok { st1 with all_completions := setAdd st1.all_completions rel }

/-- The `for relname in data` loop of `extend_relations`. -/
def relLoop (kind : RelKind) : List (List String) → CompleterState → ExceptSt
  | [], st => .ok st
  | row :: rest, st =>
    match relStep kind st row with
    | .error e => .error e
    | .ok st' => relLoop kind rest st'

/-- `SQLCompleter.extend_relations`: the consumption of the source iterable
(escaping every component of every row) is wrapped in `try/except`, so a
raising iterable degrades to the empty list; the loop then records each
relation with a `["*"]` column list. -/
def extend_relations (st : CompleterState) (it : Iter (List String)) (kind : RelKind) : ExceptSt :=
  let data :=
    match it with
    | .ok xs => xs.map escaped_names
    | .fails _ => []
  relLoop kind data st

/-- One iteration of the `extend_columns` loop body: the tuple unpacking
`for relname, column in column_data` raises `ValueError` on a row that is not
a pair; `metadata[self.dbname][relname].append(column)` raises `KeyError`
(uncaught here) when the schema or the relation is unknown; then
`self.all_completions.add(column)`. -/
def colStep (kind : RelKind) (st : CompleterState) (row : List String) : ExceptSt :=
  match row with
  | [rel, col] =>
    match st.dbname with
    | none => .error ("KeyError", st)
    | some d =>
      match alistGet d (st.relMeta kind) with
      | none => .error ("KeyError", st)
      | some inner =>
        match alistGet rel inner with
        | none => .error ("KeyError", st)
        | some cols =>
          let st1 := st.setRelMeta kind (alistPut d (alistPut rel (cols ++ [col]) inner) (st.relMeta kind))
          .ok { st1 with all_completions := setAdd st1.all_completions col }
  | _ => .error ("ValueError", st)

/-- The `for relname, column in column_data` loop of `extend_columns`. -/
def colLoop (kind : RelKind) : List (List String) → CompleterState → ExceptSt
  | [], st => .ok st
  | row :: rest, st =>
    match colStep kind st row with
    | .error e => .error e
    | .ok st' => colLoop kind rest st'

/-- `SQLCompleter.extend_columns`: consumption of the source iterable is
wrapped in `try/except` (a raising iterable degrades to the empty list); each
consumed `(relname, column)` pair is appended to the relation's column list. -/
def extend_columns (st : CompleterState) (it : Iter (List String)) (kind : RelKind) : ExceptSt :=
  let column_data :=
    match it with
    | .ok xs => xs.map escaped_names
    | .fails _ => []
  colLoop kind column_data st

/-- One iteration of the `extend_functions` loop body:
`metadata[self.dbname][func[0]] = None` (`IndexError` on an empty row,
`KeyError` on an unknown schema, both uncaught), then
`self.all_completions.add(func[0])`.  The per-schema functions dict maps names
to `None`, so it is modelled as the list of its keys. -/
def funcStep (st : CompleterState) (row : List String) : ExceptSt :=
  match row with
  | [] => .error ("IndexError", st)
  | fn :: _ =>
    match st.dbname with
    | none => .error ("KeyError", st)
    | some d =>
      match alistGet d st.functionsMeta with
      | none => .error ("KeyError", st)
      | some inner =>
        let st1 := { st with functionsMeta := alistPut d (setAdd inner fn) st.functionsMeta }
        .ok { st1 with all_completions := setAdd st1.all_completions fn }

/-- The `for func in func_data` loop of `extend_functions`. -/
def funcLoop : List (List String) → CompleterState → ExceptSt
  | [], st => .ok st
  | row :: rest, st =>
    match funcStep st row with
    | .error e => .error e
    | .ok st' => funcLoop rest st'

/-- `SQLCompleter.extend_functions`: consumption of the source iterable is
wrapped in `try/except` (a raising iterable degrades to the empty list). -/
def extend_functions (st : CompleterState) (it : Iter (List String)) : ExceptSt :=
  let func_data :=
    match it with
    | .ok xs => xs.map escaped_names
    | .fails _ => []
  funcLoop func_data st

/-! ## find_matches: the matching/ranking primitive -/

/-- The two `last_word` punctuation policies used by the completer. -/
inductive LastWordPolicy where
  | most_punctuations
  | many_punctuations
deriving DecidableEq, Repr

/-- Word-boundary characters of each policy: the stricter policy counts `.`
as a boundary; the looser one keeps it (and the backslash) so special-command
markers survive as part of the word. -/
def boundaryChar (pol : LastWordPolicy) (c : Char) : Bool :=
  match pol with
  | .most_punctuations => c.isWhitespace || c = '.' || c = '(' || c = ')' || c = ':' || c = ','
  | .many_punctuations => c.isWhitespace || c = '(' || c = ')' || c = ':' || c = ','

/-- Modelled from the spec: `last_word` lives in `litecli/packages/parseutils.py`,
which is not part of the provided sources.  Per the spec, the "last word"
extraction returns the trailing token of the text under a punctuation policy:
a stricter policy ("most punctuations") treats most punctuation as a word
boundary, while a looser one ("many punctuations") preserves leading
backslash/dot special-command markers.  We model it as the longest suffix of
the text containing no boundary character of the chosen policy (so a text
ending in whitespace or a boundary yields the empty word). -/
def last_word (text : String) (pol : LastWordPolicy) : String :=
  String.mk ((text.data.reverse.takeWhile (fun c => ¬ boundaryChar pol c)).reverse)

/-- Earliest-match continuation of the fuzzy regex `c₁.*?c₂.*?…`: match the
remaining pattern characters in order against the target, lazily (each `.*?`
as short as possible), returning the index one past the last matched
character.  `pos` is the index of the first target character. -/
def subMatchEnd : List Char → List Char → Nat → Option Nat
  | [], _, pos => some pos
  | _ :: _, [], _ => none
  | c :: cs, d :: ds, pos =>
    if c = d then subMatchEnd cs ds (pos + 1) else subMatchEnd (c :: cs) ds (pos + 1)

/-- Leftmost search of the fuzzy pattern anchored at successive start
positions, as the regex engine does: try each start; at a feasible start the
lazy quantifiers take the earliest-match extension. Returns
`(match start, match length)`. -/
def searchFrom (c : Char) (cs : List Char) : List Char → Nat → Option (Nat × Nat)
  | [], _ => none
  | d :: ds, i =>
    if c = d then
      match subMatchEnd cs ds (i + 1) with
      | some e => some (i, e - i)
      | none => searchFrom c cs ds (i + 1)
    else searchFrom c cs ds (i + 1)

/-- `re.compile("(" + ".*?".join(map(escape, text)) + ")").search(item)`:
the fuzzy-mode regex of `find_matches`, which requires the pattern characters
to appear in order (a subsequence), with Python's leftmost-then-lazy match
semantics.  The empty pattern matches at position 0 with length 0. -/
def regexSearchFuzzy (pat target : List Char) : Option (Nat × Nat) :=
  match pat with
  | [] => some (0, 0)
  | c :: cs => searchFrom c cs target 0

/-- Python `haystack.find(needle, 0, end)` region check: does `needle` start
exactly at the head of the remaining region? -/
def startsWithAt : List Char → List Char → Bool
  | [], _ => true
  | _ :: _, [] => false
  | c :: cs, d :: ds => c = d && startsWithAt cs ds

/-- Scan for the first occurrence of `needle` inside `region`. -/
def findSub : List Char → List Char → Nat → Option Nat
  | region, needle, i =>
    if startsWithAt needle region then some i
    else
      match region with
      | [] => none
      | _ :: ds => findSub ds needle (i + 1)

/-- Python `hay.find(needle, 0, lim)` (`lim = None` searches the whole
string); the match must lie entirely before `lim`. -/
def pyFind (hay needle : List Char) (lim : Option Nat) : Option Nat :=
  let region := match lim with
    | some n => hay.take n
    | none => hay
  findSub region needle 0

/-- A prompt_toolkit completion: the replacement text and the (non-positive)
start position relative to the cursor. -/
structure Completion where
  text : String
  position : Int
deriving DecidableEq, Repr

/-- Python's `sorted` on strings (lexicographic by code point, compared as
character lists). -/
def pySortedStr (l : List String) : List String :=
  l.insertionSort (fun a b => a.data ≤ b.data)

/-- The ranking key ordering of `find_matches`: Python tuple comparison on
`(match length, match start, candidate)`. -/
def keyLe (a b : Nat × Nat × String) : Prop :=
  a.1 < b.1 ∨ (a.1 = b.1 ∧ (a.2.1 < b.2.1 ∨ (a.2.1 = b.2.1 ∧ a.2.2.data ≤ b.2.2.data)))

instance : DecidableRel keyLe := fun a b => by
  unfold keyLe; infer_instance

instance : IsTotal (Nat × Nat × String) keyLe where
  total a b := by
    unfold keyLe
    rcases Nat.lt_trichotomy a.1 b.1 with h | h | h
    · exact Or.inl (Or.inl h)
    · rcases Nat.lt_trichotomy a.2.1 b.2.1 with h2 | h2 | h2
      · exact Or.inl (Or.inr ⟨h, Or.inl h2⟩)
      · rcases le_total a.2.2.data b.2.2.data with h3 | h3
        · exact Or.inl (Or.inr ⟨h, Or.inr ⟨h2, h3⟩⟩)
        · exact Or.inr (Or.inr ⟨h.symm, Or.inr ⟨h2.symm, h3⟩⟩)
      · exact Or.inr (Or.inr ⟨h.symm, Or.inl h2⟩)
    · exact Or.inr (Or.inl h)

instance : IsTrans (Nat × Nat × String) keyLe where
  trans a b c hab hbc := by
    unfold keyLe at *
    rcases hab with h1 | ⟨e1, h1⟩
    · rcases hbc with h2 | ⟨e2, _⟩
      · exact Or.inl (h1.trans h2)
      · exact Or.inl (e2 ▸ h1)
    · rcases hbc with h2 | ⟨e2, h2⟩
      · exact Or.inl (e1 ▸ h2)
      · refine Or.inr ⟨e1.trans e2, ?_⟩
        rcases h1 with h1 | ⟨f1, h1⟩
        · rcases h2 with h2 | ⟨f2, _⟩
          · exact Or.inl (h1.trans h2)
          · exact Or.inl (f2 ▸ h1)
        · rcases h2 with h2 | ⟨f2, h2⟩
          · exact Or.inl (f1 ▸ h2)
          · exact Or.inr ⟨f1.trans f2, h1.trans h2⟩

/-- Python's `sorted` on the `(length, start, candidate)` ranking triples. -/
def pySortedKey (l : List (Nat × Nat × String)) : List (Nat × Nat × String) :=
  l.insertionSort keyLe

/-- Python `s[-1].islower()` guarded by `s` being truthy. -/
def lastCharIsLower (s : String) : Bool :=
  match s.data.getLast? with
  | some c => 'a' ≤ c ∧ c ≤ 'z'
  | none => false

/-- The ranking triples `(len(match.group()), match.start(), item)` collected
by `find_matches` before sorting. -/
def matchTriples (t : String) (collection : List String) (start_only fuzzy : Bool) :
    List (Nat × Nat × String) :=
  if fuzzy then
    (pySortedStr collection).filterMap (fun item =>
      match regexSearchFuzzy t.data (strLower item).data with
      | some (s, len) => some (len, s, item)
      | none => none)
  else
    let lim : Option Nat := if start_only then some t.length else none
    (pySortedStr collection).filterMap (fun item =>
      match pyFind (strLower item).data t.data lim with
      | some p => some (t.length, p, item)
      | none => none)

/-- `SQLCompleter.find_matches`: extract the last word of the input, lower it,
collect fuzzy-subsequence or substring matches over the sorted collection,
rank them ascending by `(match length, match start, candidate)` and emit
`Completion(text, -len(last_word))`, applying the casing policy (`auto`
follows the case of the last typed character). -/
def find_matches (text : String) (collection : List String)
    (start_only fuzzy : Bool) (casing : Option String) (pol : LastWordPolicy) :
    List Completion :=
  let last := last_word text pol
  let t := strLower last
  let completions := matchTriples t collection start_only fuzzy
  let casing2 : Option String :=
    if casing = some "auto" then
      some (if lastCharIsLower last then "lower" else "upper")
    else casing
  (pySortedKey completions).map (fun q =>
    let z := q.2.2
    let txt :=
      match casing2 with
      | none => z
      | some c => if c = "upper" then strUpper z else strLower z
    Completion.mk txt (-(t.length : Int)))

/-! ## Scoped columns and the USING(...) drop_unique filter -/

/-- A table reference in the current statement's scope:
`(schema, relation name, alias)`. -/
abbrev TableRef := Option String × String × Option String

/-- The columns one scoped table contributes in `populate_scoped_cols`:
`tbl[0] or self.dbname` picks the schema (Python `or`: an empty string is
falsy); the relation is looked up in `tables` under its raw name, then its
escaped name, then in `views` under the raw name; an unresolved reference is
silently skipped. -/
def colsOfTbl (st : CompleterState) (tbl : TableRef) : List String :=
  let schema : Option String :=
    match tbl.1 with
    | some s => if s = "" then st.dbname else some s
    | none => st.dbname
  let relname := tbl.2.1
  let escaped_relname := escape_name relname
  let lookup2 := fun (m : List (String × List (String × List String))) (k : String) =>
    match schema with
    | none => none
    | some sc => (alistGet sc m).bind (alistGet k)
  match lookup2 st.tables relname with
  | some cols => cols
  | none =>
    match lookup2 st.tables escaped_relname with
    | some cols => cols
    | none => (lookup2 st.views relname).getD []

/-- `SQLCompleter.populate_scoped_cols`: concatenate each scoped table's
contribution. -/
def populate_scoped_cols (st : CompleterState) (scoped_tbls : List TableRef) : List String :=
  (scoped_tbls.map (colsOfTbl st)).flatten

/-- First occurrence of each element, in order: the iteration order of
`collections.Counter(scoped_cols).items()`. -/
def firstKeys (l : List String) : List String := l.foldl setAdd []

/-- The `drop_unique` branch of `get_completions` for a `USING (...)` column
suggestion: `[col for (col, count) in Counter(scoped_cols).items() if count > 1
and col != "*"]` applied to `populate_scoped_cols(tables)`. -/
def dropUniqueCols (st : CompleterState) (tables : List TableRef) : List String :=
  let scoped_cols := populate_scoped_cols st tables
  (firstKeys scoped_cols).filter (fun col => scoped_cols.count col > 1 && col ≠ "*")

/-- `SQLCompleter.populate_schema_objects`: keys of `dbmetadata[obj_type]`
under the (defaulted) schema, or `[]` when the schema is unknown. -/
def populate_schema_objects (st : CompleterState) (schema : Option String) (kind : RelKind) : List String :=
  let schema2 :=
    match schema with
    | some s => if s = "" then st.dbname else some s
    | none => st.dbname
  match schema2 with
  | none => []
  | some sc =>
    match alistGet sc (st.relMeta kind) with
    | none => []
    | some inner => inner.map Prod.fst

/-! ## litecli/completion_refresher.py — the metadata refresh coordinator -/

/-- The data the worker's executor connection and the global command registry
supply to the refresher steps: `executor.databases()`, `executor.dbname`,
`executor.table_columns()`, `executor.functions()` and `COMMANDS.keys()`.
The generator-valued ones may raise mid-iteration. -/
structure RefreshEnv where
  databasesIt : Iter String
  dbname : Option String
  tableColumnsIt : Iter (List String)
  functionsIt : Iter (List String)
  commandKeys : List String

/-- A refresher step: it mutates the freshly built completer and may raise. -/
abbrev StepFn := CompleterState → ExceptSt

/-- `@refresher("databases")`. -/
def refresh_databases (env : RefreshEnv) : StepFn := fun completer =>
  extend_database_names completer env.databasesIt

/-- `@refresher("schemata")`: extend the schemata with the connection's
database name, then `set_dbname`. -/
def refresh_schemata (env : RefreshEnv) : StepFn := fun completer =>
  .ok (set_dbname (extend_schemata completer env.dbname) env.dbname)

/-- `@refresher("tables")`: `table_cols = list(executor.table_columns())` is
consumed *outside* any `try` (a raising generator propagates here), then fed
to both `extend_relations` and `extend_columns` with kind `"tables"`. -/
def refresh_tables (env : RefreshEnv) : StepFn := fun completer =>
  match env.tableColumnsIt with
  | .fails _ => .error ("exception from table_columns generator", completer)
  | .ok table_cols =>
    match extend_relations completer (.ok table_cols) .tables with
    | .error e => .error e
    | .ok c1 => extend_columns c1 (.ok table_cols) .tables

/-- `@refresher("functions")`. -/
def refresh_functions (env : RefreshEnv) : StepFn := fun completer =>
  extend_functions completer env.functionsIt

/-- `@refresher("special_commands")`: `list(COMMANDS.keys())` cannot raise. -/
def refresh_special (env : RefreshEnv) : StepFn := fun completer =>
  extend_special_commands completer (.ok env.commandKeys)

/-- `CompletionRefresher.refreshers`, in registration (decorator) order. -/
def refreshSteps (env : RefreshEnv) : List StepFn :=
  [refresh_databases env, refresh_schemata env, refresh_tables env,
   refresh_functions env, refresh_special env]

/-- One pass of the `for refresher in self.refreshers.values()` loop: run each
step, then poll `self._restart_refresh.is_set()`.  The restart flag is set
concurrently by other threads; we model the sequence of values returned by the
successive polls by the oracle list `fl` (exhausted entries read as `false`).
Returns the completer, the remaining oracle and whether the pass was cut short
by a restart request (in which case the flag was cleared). -/
def runPass : List StepFn → CompleterState → List Bool →
    Except (String × CompleterState) (CompleterState × List Bool × Bool)
  | [], c, fl => .ok (c, fl, false)
  | s :: rest, c, fl =>
    match s c with
    | .error e => .error e
    | .ok c' =>
      let f := fl.headD false
      let fl' := fl.tail
      if f then .ok (c', fl', true) else runPass rest c' fl'

/-- A restart-terminated pass consumed at least one oracle entry (the poll
that returned `true`), so the oracle strictly shrinks. -/
theorem runPass_restart_length (steps : List StepFn) (c : CompleterState) (fl : List Bool)
    (c' : CompleterState) (fl' : List Bool)
    (h : runPass steps c fl = .ok (c', fl', true)) : fl'.length < fl.length := by
  induction steps generalizing c fl with
  | nil => simp [runPass] at h
  | cons s rest ih =>
    simp only [runPass] at h
    cases hs : s c with
    | error e => rw [hs] at h; exact absurd h (by simp)
    | ok c1 =>
      rw [hs] at h
      simp only at h
      by_cases hf : fl.headD false = true
      · rw [if_pos hf] at h
        cases h
        cases fl with
        | nil => simp at hf
        | cons b bs => simp [List.tail]
      · rw [if_neg hf] at h
        have := ih c1 fl.tail h
        calc fl'.length < fl.tail.length := this
          _ ≤ fl.length := by cases fl <;> simp [List.tail]

/-- The `while 1` loop of `_bg_refresh`: a pass cut short by a restart
request clears the flag and re-enters the step list from the top, on the same
completer instance; a naturally finished pass ends the loop. -/
def runLoop (steps : List StepFn) (c : CompleterState) (fl : List Bool) :
    Except (String × CompleterState) CompleterState :=
  match h : runPass steps c fl with
  | .error e => .error e
  | .ok (c', fl', true) => runLoop steps c' fl'
  | .ok (c', _, false) => .ok c'
termination_by fl.length
decreasing_by exact runPass_restart_length steps c fl c' fl' h

/-- `CompletionRefresher._bg_refresh`: build a **fresh** `SQLCompleter`
(never the live one), run the restartable step loop over it, and — on normal
completion — hand the resulting completer to every registered callback.  The
returned state is the completer as passed to the callbacks. -/
def bg_refresh (env : RefreshEnv) (fl : List Bool) :
    Except (String × CompleterState) CompleterState :=
  runLoop (refreshSteps env) initCompleter fl

/-! ### The refresh entry point and the at-most-one-worker discipline -/

/-- The coordinator state visible to `refresh`/`is_refreshing`: how many
spawned background workers are currently alive (the source keeps only the
most recently spawned thread and its liveness), and the restart event flag. -/
structure RefresherState where
  aliveWorkers : Nat
  restartFlag : Bool
deriving DecidableEq, Repr

/-- A fresh `CompletionRefresher`. -/
def initRefresher : RefresherState := { aliveWorkers := 0, restartFlag := false }

/-- `CompletionRefresher.is_refreshing`. -/
def is_refreshing (s : RefresherState) : Bool := s.aliveWorkers > 0

/-- A `(title, rows, headers, status)` tuple as returned by `refresh`. -/
abbrev StatusTuple := Option String × Option String × Option String × Option String

/-- `CompletionRefresher.refresh`: when a refresh is underway, set the restart
flag and return at once; otherwise run synchronously (in-memory database —
no thread) or spawn one background worker.  The result records the new
coordinator state, the returned status tuples and how many new worker threads
were spawned. -/
def refresh (s : RefresherState) (inMemory : Bool) :
    RefresherState × List StatusTuple × Nat :=
  if is_refreshing s then
    ({ s with restartFlag := true },
     [(none, none, none, some "Auto-completion refresh restarted.")], 0)
  else
    if inMemory then
      (s, [(none, none, none, some "Auto-completion refresh started in the background.")], 0)
    else
      ({ s with aliveWorkers := s.aliveWorkers + 1 },
       [(none, none, none, some "Auto-completion refresh started in the background.")], 1)

/-- The events that change the coordinator state: a `refresh(...)` call, or a
background worker finishing. -/
inductive RefreshEvent where
  | call (inMemory : Bool)
  | workerExit
deriving DecidableEq, Repr

/-- Transition of the coordinator state under one event. -/
def refresherStep (s : RefresherState) : RefreshEvent → RefresherState
  | .call m => (refresh s m).1
  | .workerExit => { s with aliveWorkers := s.aliveWorkers - 1 }

/-- Run a trace of events from a fresh coordinator. -/
def runRefresher (events : List RefreshEvent) : RefresherState :=
  events.foldl refresherStep initRefresher

/-! ## litecli/packages/special/main.py — registry and dispatcher -/

/-- Invocation verbosity: succinct (`-`), normal, or verbose (`+`). -/
inductive Verbosity where
  | succinct
  | normal
  | verbose
deriving DecidableEq, Repr

/-- `parse_special_command`: split on the first space; `+` anywhere in the
command token means verbose, else `-` means succinct; the token is stripped of
whitespace and then of leading/trailing `+`/`-`; the remainder is stripped. -/
def parse_special_command (sql : String) : String × Verbosity × String :=
  let (command, arg) := pyPartitionSpace sql
  let verbosity :=
    if strHasChar command '+' then Verbosity.verbose
    else if strHasChar command '-' then Verbosity.succinct
    else Verbosity.normal
  let command2 := String.mk (stripCharsL (fun c => c = '+' ∨ c = '-') (stripCharsL pySpace command.data))
  (command2, verbosity, pyStrip arg)

/-- The argument conventions of special commands (`NO_QUERY`, `PARSED_QUERY`,
`RAW_QUERY`). -/
inductive ArgType where
  | no_query
  | parsed_query
  | raw_query
deriving DecidableEq, Repr

/-- A registered special command.  The handler function object is modelled by
its name. -/
structure SpecialCommand where
  handler : String
  command : String
  shortcut : String
  description : String
  arg_type : ArgType
  hidden : Bool
  case_sensitive : Bool
deriving DecidableEq, Repr

/-- The global `COMMANDS` registry, as an insertion-ordered dict. -/
abbrev Registry := List (String × SpecialCommand)

/-- `register_special_command`: the canonical entry is stored under the
lower-cased name unless case-sensitive; each alias maps to the same
handler/metadata but marked hidden. -/
def register_special_command (cmds : Registry) (handler command shortcut description : String)
    (arg_type : ArgType) (hidden case_sensitive : Bool) (aliases : List String) : Registry :=
  let k := if case_sensitive then command else strLower command
  let cmds1 := alistPut k ⟨handler, command, shortcut, description, arg_type, hidden, case_sensitive⟩ cmds
  aliases.foldl
    (fun acc al =>
      let ka := if case_sensitive then al else strLower al
      alistPut ka ⟨handler, command, shortcut, description, arg_type, true, case_sensitive⟩ acc)
    cmds1

/-- The handler call `execute` dispatches to, by declared `arg_type`. -/
inductive Dispatch where
  | noArgs (handler : String)
  | parsedQ (handler : String) (arg : String) (verbose : Bool)
  | rawQ (handler : String) (query : String)
deriving DecidableEq, Repr

/-- The `arg_type` dispatch at the end of `special.main.execute`: `NO_QUERY`
handlers get no arguments, `PARSED_QUERY` handlers get the trimmed remainder
and the verbose flag, `RAW_QUERY` handlers get the original full text. -/
def dispatchFor (sc : SpecialCommand) (sql arg : String) (verbose : Bool) : Dispatch :=
  match sc.arg_type with
  | .no_query => .noArgs sc.handler
  | .parsed_query => .parsedQ sc.handler arg verbose
  | .raw_query => .rawQ sc.handler sql

/-- `special.main.execute` up to the handler call: parse the command token,
look it up by exact key and then by lower-cased key (a case-sensitive command
reached only through the lower-cased fallback is treated as not found), and
produce the dispatch prescribed by the command's `arg_type`.  An error models
raising `CommandNotFound`. -/
def executeSpecial (cmds : Registry) (sql : String) : Except String Dispatch :=
  let (command, verbosity, arg) := parse_special_command sql
  if (alistGet command cmds).isNone ∧ (alistGet (strLower command) cmds).isNone then
    .error "CommandNotFound"
  else
    match alistGet command cmds with
    | some sc => .ok (dispatchFor sc sql arg (verbosity = Verbosity.verbose))
    | none =>
      match alistGet (strLower command) cmds with
      | some sc =>
        if sc.case_sensitive then .error ("Command not found: " ++ command)
        else .ok (dispatchFor sc sql arg (verbosity = Verbosity.verbose))
      | none => .error "unreachable KeyError"

/-! ## litecli/packages/special/iocommands.py — favorite queries -/

/-- Modelled from the spec (external collaborator): `sqlparse.split` splits
SQL text on `;` statement boundaries; statements are stripped of surrounding
whitespace and whitespace-only pieces are dropped. -/
def sqlparseSplit (q : String) : List String :=
  ((splitOnCharL ';' q.data).map (fun cs => String.mk (stripCharsL pySpace cs))).filter
    (fun s => s ≠ "")

/-- Modelled from the spec (external collaborator): `shlex.split` tokenizes on
whitespace, with single- or double-quoted segments kept together (quotes
removed). -/
def shlexSplitL : List Char → Option Char → List Char → List (List Char)
  | [], none, cur => if cur = [] then [] else [cur.reverse]
  | [], some _, cur => [cur.reverse]
  | c :: rest, some q, cur =>
    if c = q then shlexSplitL rest none cur
    else shlexSplitL rest (some q) (c :: cur)
  | c :: rest, none, cur =>
    if c.isWhitespace then
      if cur = [] then shlexSplitL rest none []
      else cur.reverse :: shlexSplitL rest none []
    else if c = '\'' ∨ c = '"' then shlexSplitL rest (some c) cur
    else shlexSplitL rest none (c :: cur)

/-- `shlex.split` on a string. -/
def shlexSplit (s : String) : List String :=
  (shlexSplitL s.data none []).map String.mk

/-- Replace occurrences of `old` by `new` in a character list, left to right,
non-overlapping; `limit` bounds the number of replacements (`none` = all), as
Python `str.replace`. -/
def replaceL (old new : List Char) (limit : Option Nat) : List Char → List Char
  | [] => []
  | c :: rest =>
    if limit = some 0 then c :: rest
    else if h : old ≠ [] ∧ startsWithAt old (c :: rest) then
      let remaining := (c :: rest).drop old.length
      new ++ replaceL old new (limit.map (· - 1)) remaining
  else c :: replaceL old new limit rest
termination_by l => l.length
decreasing_by
  · have hlen : 1 ≤ old.length := by
      cases old with
      | nil => exact absurd rfl h.1
      | cons _ _ => simp
    simp only [List.length_drop, List.length_cons]
    omega
  · simp [List.length_cons]

/-- Python `query.replace(old, new)` (all occurrences). -/
def pyReplaceAll (s old new : String) : String :=
  String.mk (replaceL old.data new.data none s.data)

/-- Python `query.replace(old, new, 1)` (first occurrence only). -/
def pyReplaceFirst (s old new : String) : String :=
  String.mk (replaceL old.data new.data (some 1) s.data)

/-- Python substring containment `old in s`. -/
def strContains (s old : String) : Bool :=
  (pyFind s.data old.data none).isSome

/-- The decimal digits of `n`, as a string (for the `$N` markers). -/
def natToStr (n : Nat) : String := String.mk (Nat.toDigits 10 n)

/-- The leftmost match of the regex `\?|\$\d+` in the query: either a literal
`?`, or `$` followed by one or more digits (maximal munch). -/
def findMarkerL : List Char → Option (List Char)
  | [] => none
  | c :: rest =>
    if c = '?' then some ['?']
    else if c = '$' then
      match rest.takeWhile Char.isDigit with
      | [] => findMarkerL rest
      | ds => some ('$' :: ds)
    else findMarkerL rest

/-- The loop of `subst_favorite_query_args` over the argument list: argument
`idx` replaces every `$(idx+1)` if present, else the first `?` if present,
else the call fails with "Too many arguments". -/
def substArgsLoop : String → List String → Nat → Except String String
  | query, [], _ => .ok query
  | query, val :: rest, idx =>
    let shell_subst_var := "$" ++ natToStr (idx + 1)
    if strContains query shell_subst_var then
      substArgsLoop (pyReplaceAll query shell_subst_var val) rest (idx + 1)
    else if strContains query "?" then
      substArgsLoop (pyReplaceFirst query "?" val) rest (idx + 1)
    else
      .error ("Too many arguments.\nQuery does not have enough place holders to substitute.\n" ++ query)

/-- `subst_favorite_query_args`: run the substitution loop, then fail if an
unresolved `?` or `$N` marker remains.  The source returns the pair
`[query, None]` on success and `[None, message]` on failure, encoded here as
`Except`. -/
def subst_favorite_query_args (query : String) (args : List String) : Except String String :=
  match substArgsLoop query args 0 with
  | .error e => .error e
  | .ok q =>
    match findMarkerL q.data with
    | some m => .error ("missing substitution for " ++ String.mk m ++ " in query:\n  " ++ q)
    | none => .ok q

/-- Rows of a yielded result tuple: either the live cursor object, or the
materialized listing rows of `list_favorite_queries`. -/
inductive RowsVal where
  | fromCursor
  | listing (rows : List (String × Option String))
deriving DecidableEq, Repr

/-- A `(title, rows, headers, status)` tuple yielded by a special command. -/
structure PyResult where
  title : Option String
  rows : Option RowsVal
  headers : Option (List String)
  status : Option String
deriving DecidableEq, Repr

/-- Modelled from the spec (external database collaborator, §6): a cursor.
`describeOf sql` is `cursor.description` after executing `sql` — the result
headers for a row-returning statement, `none` otherwise.  Executing a
statement with a parameter list succeeds iff the number of `?` placeholders
equals the number of parameters; otherwise sqlite raises `ProgrammingError`
("Incorrect number of bindings supplied"), as the repository's own tests
assert (`tests/test_sqlexecute.py::test_bind_parameterized_favorite_query`).
Placeholders inside string literals are not modelled (no claim exercises
them). -/
structure CursorModel where
  describeOf : String → Option (List String)

/-- `cur.execute(sql, params)` (and `cur.execute(sql)` with `params = []`). -/
def cursorExec (cm : CursorModel) (sql : String) (params : List String) :
    Except String (Option (List String)) :=
  if strCountChar sql '?' = params.length then .ok (cm.describeOf sql)
  else .error "ProgrammingError: Incorrect number of bindings supplied."

/-- `list_favorite_queries`: one tuple with the Name/Query listing. -/
def list_favorite_queries (favs : List (String × String)) : List PyResult :=
  let rows := favs.map (fun p => (p.1, alistGet p.1 favs))
  let status :=
    if rows = [] then "\nNo favorite queries found." else ""
  [{ title := some "", rows := some (.listing rows), headers := some ["Name", "Query"],
     status := some status }]

/-- Execute the statements of a favorite query one by one, passing `params`
to every `cur.execute` call, and record the executed `(sql, params)` calls.
This is the shared `for sql in sqlparse.split(query)` loop of
`execute_favorite_query` (its two branches differ only in `params`). -/
def runStatements (cm : CursorModel) (stmts : List String) (params : List String)
    (verbose : Bool) : Except String (List PyResult × List (String × List String))
  := match stmts with
  | [] => .ok ([], [])
  | sql0 :: rest =>
    let sql := pyRstripChars [';'] sql0
    let title := if verbose then some ("> " ++ sql) else none
    match cursorExec cm sql params with
    | .error e => .error e
    | .ok descr =>
      let r : PyResult :=
        match descr with
        | some hs => { title := title, rows := some .fromCursor, headers := some hs, status := none }
        | none => { title := title, rows := none, headers := none, status := none }
      match runStatements cm rest params verbose with
      | .error e => .error e
      | .ok (rs, calls) => .ok (r :: rs, (sql, params) :: calls)

/-- The body of `execute_favorite_query` from the lookup of the favorite
onwards (`query = favoritequeries.get(name)` ...): unknown name yields a
status message; a query containing `?` is executed with the arguments passed
to the cursor as bind parameters (no text substitution); otherwise `$N` text
substitution runs first and a substitution error is yielded as a status
tuple.  On success also returns the log of executed `(sql, params)` calls. -/
def favQueryBody (cm : CursorModel) (favs : List (String × String)) (name : String)
    (args : List String) (verbose : Bool) :
    Except String (List PyResult × List (String × List String)) :=
  match alistGet name favs with
  | none => .ok ([{ title := none, rows := none, headers := none,
                    status := some ("No favorite query: " ++ name) }], [])
  | some query =>
    if strContains query "?" then
      runStatements cm (sqlparseSplit query) args verbose
    else
      match subst_favorite_query_args query args with
      | .error arg_error =>
        .ok ([{ title := none, rows := none, headers := none, status := some arg_error }], [])
      | .ok query2 => runStatements cm (sqlparseSplit query2) [] verbose

/-- `execute_favorite_query(cur, arg, verbose)`: with an empty `arg` the
favorites listing is yielded first and — the source does not return there —
control still falls through to the body with an empty name; otherwise the
name and the shlex-split substitution arguments are parsed out of `arg`. -/
def execute_favorite_query (cm : CursorModel) (favs : List (String × String))
    (arg : String) (verbose : Bool) :
    Except String (List PyResult × List (String × List String)) :=
  let listing := if arg = "" then list_favorite_queries favs else []
  let (name, arg_str) := pyPartitionSpace arg
  let args := shlexSplit arg_str
  match favQueryBody cm favs name args verbose with
  | .error e => .error e
  | .ok (rs, calls) => .ok (listing ++ rs, calls)

/-! ## Helper lemmas on the dict/set models -/

theorem alistGet_put_self {β : Type} (k : String) (v : β) (m : List (String × β)) :
    alistGet k (alistPut k v m) = some v := by
  induction m with
  | nil => simp [alistGet, alistPut]
  | cons p rest ih =>
    by_cases h : k = p.1
    · simp [alistPut, h, alistGet]
    · simp [alistPut, h, alistGet, ih]

theorem alistPut_eq_of_get {β : Type} {k : String} {v : β} {m : List (String × β)}
    (h : alistGet k m = some v) : alistPut k v m = m := by
  induction m with
  | nil => simp [alistGet] at h
  | cons p rest ih =>
    obtain ⟨k', v'⟩ := p
    by_cases hk : k = k'
    · simp [alistGet, hk] at h
      simp [alistPut, hk, h]
    · simp [alistGet, hk] at h
      simp [alistPut, hk, ih h]

theorem setAdd_eq_of_mem {xs : List String} {x : String} (h : x ∈ xs) : setAdd xs x = xs := by
  simp [setAdd, h]

theorem mem_setAdd_self (xs : List String) (x : String) : x ∈ setAdd xs x := by
  by_cases h : x ∈ xs <;> simp [setAdd, h]

theorem mem_setAdd_of_mem {xs : List String} {a : String} (x : String) (h : a ∈ xs) :
    a ∈ setAdd xs x := by
  by_cases hx : x ∈ xs <;> simp [setAdd, hx, h]

theorem mem_setUpdate_of_mem_left {xs : List String} {a : String} (ys : List String)
    (h : a ∈ xs) : a ∈ setUpdate xs ys := by
  induction ys generalizing xs with
  | nil => simpa [setUpdate] using h
  | cons y ys ih =>
    simpa [setUpdate] using ih (mem_setAdd_of_mem y h)

theorem mem_setUpdate_of_mem_arg {ys : List String} {a : String} (xs : List String)
    (h : a ∈ ys) : a ∈ setUpdate xs ys := by
  induction ys generalizing xs with
  | nil => cases h
  | cons y ys ih =>
    rcases List.mem_cons.mp h with rfl | hy
    · exact mem_setUpdate_of_mem_left ys (mem_setAdd_self xs a)
    · simpa [setUpdate] using ih (setAdd xs y) hy

theorem setUpdate_eq_of_forall_mem {xs ys : List String} (h : ∀ y ∈ ys, y ∈ xs) :
    setUpdate xs ys = xs := by
  induction ys with
  | nil => rfl
  | cons y ys ih =>
    have hy : y ∈ xs := h y (List.mem_cons_self _ _)
    show setUpdate (setAdd xs y) ys = xs
    rw [setAdd_eq_of_mem hy]
    exact ih (fun z hz => h z (List.mem_cons_of_mem _ hz))

/-- Structure eta for updating `all_completions` with its own value. -/
theorem completer_eta_all (st : CompleterState) :
    { st with all_completions := st.all_completions } = st := rfl

theorem setRelMeta_self (st : CompleterState) (kind : RelKind) :
    st.setRelMeta kind (st.relMeta kind) = st := by
  cases kind <;> rfl

/-! ## C1 — exception tolerance of the extend operations -/

/-- C1 counterexample: `extend_database_names` has no `try/except`, so a
source iterable raising mid-iteration propagates the exception out of the
public method instead of returning normally with an empty result. -/
theorem extend_database_names_fails_counterexample :
    extend_database_names ⟨[], [], some "", [], [], [], []⟩ (Iter.fails []) =
      .error ("exception from source iterable", ⟨[], [], some "", [], [], [], []⟩) := rfl

/-- C1 (amended): `extend_relations`, `extend_columns` and `extend_functions`
wrap the consumption of their source iterable in `try/except`, so a source
iterable raising mid-iteration makes the call return normally with the state
unchanged (an empty result is substituted for that metadata category);
`extend_database_names` and `extend_special_commands` propagate the
exception. -/
theorem extend_tolerates_failing_iterable (st : CompleterState) (pre : List (List String))
    (preS : List String) (kind : RelKind) :
    extend_relations st (Iter.fails pre) kind = .ok st ∧
    extend_columns st (Iter.fails pre) kind = .ok st ∧
    extend_functions st (Iter.fails pre) = .ok st ∧
    (∃ e, extend_database_names st (Iter.fails preS) = .error e) ∧
    (∃ e, extend_special_commands st (Iter.fails preS) = .error e) :=
  ⟨rfl, rfl, rfl, ⟨_, rfl⟩, ⟨_, rfl⟩⟩

/-! ## C2 — escape_name -/

/-- C2 counterexample: the empty string fails the identifier pattern (so the
claim requires it to be wrapped in backticks), but `escape_name` returns it
unchanged — the source guards the escaping with `if name and (...)`. -/
theorem escape_name_empty_counterexample :
    nameMatches "" = false ∧ escape_name "" = "" ∧ ("" : String) ≠ "`" ++ "" ++ "`" := by
  refine ⟨rfl, rfl, ?_⟩
  decide

/-- C2 (amended): for every **nonempty** identifier string, `escape_name`
returns the string unchanged if it matches `[A-Za-z_][A-Za-z0-9_$]*` and its
upper-casing is neither a reserved keyword word nor a built-in function name,
and returns the string wrapped in backticks otherwise.  (The empty string is
returned unchanged.) -/
theorem escape_name_spec (name : String) (hne : name ≠ "") :
    (nameMatches name = true ∧ strUpper name ∉ reserved_words ∧ strUpper name ∉ functions →
      escape_name name = name) ∧
    (nameMatches name = false ∨ strUpper name ∈ reserved_words ∨ strUpper name ∈ functions →
      escape_name name = "`" ++ name ++ "`") := by
  constructor
  · rintro ⟨h1, h2, h3⟩
    unfold escape_name
    rw [if_neg]
    rintro ⟨-, h | h | h⟩
    · exact h (by simp [h1])
    · exact h2 h
    · exact h3 h
  · intro h
    unfold escape_name
    rw [if_pos]
    refine ⟨hne, ?_⟩
    rcases h with h | h | h
    · exact Or.inl (by simp [h])
    · exact Or.inr (Or.inl h)
    · exact Or.inr (Or.inr h)

/-- C2 witness: `escape_name` at the claim's own examples — `users` is left
alone, `select` (a reserved keyword) and `2025todos` (pattern failure) are
wrapped. -/
theorem escape_name_spec_witness :
    escape_name "users" = "users" ∧
    escape_name "select" = "`select`" ∧
    escape_name "2025todos" = "`2025todos`" :=
  ⟨(escape_name_spec "users" (by decide)).1 (by refine ⟨by decide, ?_, ?_⟩ <;> decide),
   (escape_name_spec "select" (by decide)).2 (Or.inr (Or.inl (by decide))),
   (escape_name_spec "2025todos" (by decide)).2 (Or.inl (by decide))⟩

/-! ## C9 — idempotency of the extend operations -/

theorem alistGet_put_other {β : Type} {k k' : String} (hne : k ≠ k') (v : β)
    (m : List (String × β)) : alistGet k (alistPut k' v m) = alistGet k m := by
  induction m with
  | nil => simp [alistGet, alistPut, hne]
  | cons p rest ih =>
    obtain ⟨k0, v0⟩ := p
    by_cases h0 : k' = k0
    · subst h0
      simp [alistPut, alistGet, hne]
    · by_cases h1 : k = k0 <;> simp [alistPut, alistGet, h0, h1, ih]

theorem relMeta_update_all (st : CompleterState) (x : List String) (kind : RelKind) :
    ({ st with all_completions := x } : CompleterState).relMeta kind = st.relMeta kind := by
  cases kind <;> rfl

theorem dbname_setRelMeta (st : CompleterState) (kind : RelKind)
    (m : List (String × List (String × List String))) :
    (st.setRelMeta kind m).dbname = st.dbname := by
  cases kind <;> rfl

theorem all_setRelMeta (st : CompleterState) (kind : RelKind)
    (m : List (String × List (String × List String))) :
    (st.setRelMeta kind m).all_completions = st.all_completions := by
  cases kind <;> rfl

theorem relMeta_setRelMeta_same (st : CompleterState) (kind : RelKind)
    (m : List (String × List (String × List String))) :
    (st.setRelMeta kind m).relMeta kind = m := by
  cases kind <;> rfl

/-- Saturation of one `extend_relations` row in a state: the relation is
already recorded (under the current database, when that schema exists) with
the `["*"]` placeholder, and its name is in `all_completions`. -/
def RelSat (kind : RelKind) (st : CompleterState) (row : List String) : Prop :=
  match row with
  | [] => False
  | rel :: _ =>
    (∀ d inner, st.dbname = some d → alistGet d (st.relMeta kind) = some inner →
       alistGet rel inner = some ["*"]) ∧ rel ∈ st.all_completions

theorem relStep_cons (kind : RelKind) (st : CompleterState) (rel : String) (rest : List String) :
    relStep kind st (rel :: rest) =
      .ok { relInsert kind st rel with
            all_completions := setAdd (relInsert kind st rel).all_completions rel } := rfl

theorem relInsert_dbname (kind : RelKind) (st : CompleterState) (rel : String) :
    (relInsert kind st rel).dbname = st.dbname := by
  unfold relInsert
  split
  · rfl
  · split
    · rfl
    · exact dbname_setRelMeta ..

theorem relInsert_all (kind : RelKind) (st : CompleterState) (rel : String) :
    (relInsert kind st rel).all_completions = st.all_completions := by
  unfold relInsert
  split
  · rfl
  · split
    · rfl
    · exact all_setRelMeta ..

theorem relInsert_meta_some {st : CompleterState} {d : String}
    (kind : RelKind) (rel : String)
    (hd : st.dbname = some d) {inner : List (String × List String)}
    (hg : alistGet d (st.relMeta kind) = some inner) :
    alistGet d ((relInsert kind st rel).relMeta kind) = some (alistPut rel ["*"] inner) := by
  unfold relInsert
  simp only [hd, hg]
  rw [relMeta_setRelMeta_same, alistGet_put_self]

theorem relInsert_meta_none {st : CompleterState} {d : String}
    (kind : RelKind) (rel : String)
    (hd : st.dbname = some d) (hg : alistGet d (st.relMeta kind) = none) :
    (relInsert kind st rel).relMeta kind = st.relMeta kind := by
  unfold relInsert
  simp only [hd, hg]

theorem relInsert_meta_nodb {st : CompleterState}
    (kind : RelKind) (rel : String) (hd : st.dbname = none) :
    (relInsert kind st rel).relMeta kind = st.relMeta kind := by
  unfold relInsert
  simp only [hd]

theorem relInsert_of_sat {kind : RelKind} {st : CompleterState} {rel : String}
    (h1 : ∀ d inner, st.dbname = some d → alistGet d (st.relMeta kind) = some inner →
       alistGet rel inner = some ["*"]) :
    relInsert kind st rel = st := by
  unfold relInsert
  split
  · rfl
  · rename_i d hd
    split
    · rfl
    · rename_i inner hg
      rw [alistPut_eq_of_get (h1 d inner hd hg), alistPut_eq_of_get hg, setRelMeta_self]

theorem relStep_of_sat {kind : RelKind} {st : CompleterState} {row : List String}
    (h : RelSat kind st row) : relStep kind st row = .ok st := by
  match row with
  | [] => exact absurd h id
  | rel :: rest =>
    obtain ⟨h1, h2⟩ := h
    rw [relStep_cons, relInsert_of_sat h1, setAdd_eq_of_mem h2]

/-- Everything the rest of the development needs to know about a successful
`relStep`: the row is nonempty, `dbname` is unchanged, the relation name was
added to `all_completions` (monotonically), and the `kind` metadata either got
`relname ↦ ["*"]` recorded under the current database or was left alone. -/
theorem relStep_ok_descr {kind : RelKind} {st st1 : CompleterState} {row : List String}
    (h : relStep kind st row = .ok st1) :
    ∃ rel rest, row = rel :: rest ∧
      st1.dbname = st.dbname ∧
      rel ∈ st1.all_completions ∧
      (∀ a ∈ st.all_completions, a ∈ st1.all_completions) ∧
      (∀ d, st.dbname = some d →
        (∀ inner, alistGet d (st.relMeta kind) = some inner →
          alistGet d (st1.relMeta kind) = some (alistPut rel ["*"] inner)) ∧
        (alistGet d (st.relMeta kind) = none → st1.relMeta kind = st.relMeta kind)) ∧
      (st.dbname = none → st1.relMeta kind = st.relMeta kind) := by
  match row with
  | [] => exact absurd h (by simp [relStep])
  | rel :: rest =>
    rw [relStep_cons] at h
    cases h
    refine ⟨rel, rest, rfl, ?_, ?_, ?_, ?_, ?_⟩
    · show (relInsert kind st rel).dbname = st.dbname
      exact relInsert_dbname ..
    · exact mem_setAdd_self _ _
    · intro a ha
      show a ∈ setAdd (relInsert kind st rel).all_completions rel
      rw [relInsert_all]
      exact mem_setAdd_of_mem _ ha
    · intro d hd
      constructor
      · intro inner hg
        show alistGet d (({ relInsert kind st rel with
          all_completions := setAdd (relInsert kind st rel).all_completions rel } : CompleterState).relMeta kind) = _
        rw [relMeta_update_all]
        exact relInsert_meta_some kind rel hd hg
      · intro hg
        show (({ relInsert kind st rel with
          all_completions := setAdd (relInsert kind st rel).all_completions rel } : CompleterState).relMeta kind) = _
        rw [relMeta_update_all]
        exact relInsert_meta_none kind rel hd hg
    · intro hd
      show (({ relInsert kind st rel with
        all_completions := setAdd (relInsert kind st rel).all_completions rel } : CompleterState).relMeta kind) = _
      rw [relMeta_update_all]
      exact relInsert_meta_nodb kind rel hd

theorem relStep_ok_sat_self {kind : RelKind} {st st1 : CompleterState} {row : List String}
    (h : relStep kind st row = .ok st1) : RelSat kind st1 row := by
  obtain ⟨rel, rest, hrow, hdb, hmem, _, hsome, hnone⟩ := relStep_ok_descr h
  subst hrow
  refine ⟨fun d inner hd hg => ?_, hmem⟩
  rw [hdb] at hd
  cases hg0 : alistGet d (st.relMeta kind) with
  | none => rw [(hsome d hd).2 hg0, hg0] at hg; cases hg
  | some inner0 =>
    rw [(hsome d hd).1 inner0 hg0] at hg
    cases hg
    exact alistGet_put_self ..

theorem relStep_preserves_sat {kind : RelKind} {st st1 : CompleterState} {row row' : List String}
    (hs : RelSat kind st row') (h : relStep kind st row = .ok st1) : RelSat kind st1 row' := by
  match row' with
  | [] => exact absurd hs id
  | rel' :: rest' =>
    obtain ⟨h1, h2⟩ := hs
    obtain ⟨rel, rest, hrow, hdb, _, hmono, hsome, hnone⟩ := relStep_ok_descr h
    refine ⟨fun d inner hd hg => ?_, hmono _ h2⟩
    rw [hdb] at hd
    cases hg0 : alistGet d (st.relMeta kind) with
    | none => rw [(hsome d hd).2 hg0, hg0] at hg; cases hg
    | some inner0 =>
      rw [(hsome d hd).1 inner0 hg0] at hg
      cases hg
      by_cases hrr : rel' = rel
      · subst hrr; exact alistGet_put_self ..
      · rw [alistGet_put_other hrr]
        exact h1 d inner0 hd hg0

theorem relLoop_preserves_sat {kind : RelKind} {rows : List (List String)}
    {st st' : CompleterState} {row' : List String}
    (hs : RelSat kind st row') (h : relLoop kind rows st = .ok st') : RelSat kind st' row' := by
  induction rows generalizing st with
  | nil => cases h; exact hs
  | cons row rest ih =>
    unfold relLoop at h
    cases hstep : relStep kind st row with
    | error e => rw [hstep] at h; cases h
    | ok st1 =>
      rw [hstep] at h
      exact ih (relStep_preserves_sat hs hstep) h

theorem relLoop_ok_sat {kind : RelKind} {rows : List (List String)} {st st' : CompleterState}
    (h : relLoop kind rows st = .ok st') : ∀ row ∈ rows, RelSat kind st' row := by
  induction rows generalizing st with
  | nil => intro row hrow; cases hrow
  | cons row rest ih =>
    intro r hr
    unfold relLoop at h
    cases hstep : relStep kind st row with
    | error e => rw [hstep] at h; cases h
    | ok st1 =>
      rw [hstep] at h
      rcases List.mem_cons.mp hr with rfl | hr'
      · exact relLoop_preserves_sat (relStep_ok_sat_self hstep) h
      · exact ih h r hr'

theorem relLoop_fixed {kind : RelKind} {rows : List (List String)} {st' : CompleterState}
    (h : ∀ row ∈ rows, RelSat kind st' row) : relLoop kind rows st' = .ok st' := by
  induction rows with
  | nil => rfl
  | cons row rest ih =>
    unfold relLoop
    rw [relStep_of_sat (h row (List.mem_cons_self _ _))]
    exact ih (fun r hr => h r (List.mem_cons_of_mem _ hr))

theorem relLoop_idem {kind : RelKind} {rows : List (List String)} {st st' : CompleterState}
    (h : relLoop kind rows st = .ok st') : relLoop kind rows st' = .ok st' :=
  relLoop_fixed (relLoop_ok_sat h)

/-- Saturation of one `extend_functions` row in a state. -/
def FuncSat (st : CompleterState) (row : List String) : Prop :=
  match row with
  | [] => False
  | fn :: _ =>
    (∃ d inner, st.dbname = some d ∧ alistGet d st.functionsMeta = some inner ∧ fn ∈ inner) ∧
      fn ∈ st.all_completions

theorem funcStep_of_sat {st : CompleterState} {row : List String}
    (h : FuncSat st row) : funcStep st row = .ok st := by
  match row with
  | [] => exact absurd h id
  | fn :: rest =>
    obtain ⟨⟨d, inner, hd, hg, hf⟩, h2⟩ := h
    obtain ⟨sc, dbs, dbn, tbls, vws, fm, ac⟩ := st
    dsimp only at hd hg h2
    subst hd
    unfold funcStep
    simp only [hg]
    rw [setAdd_eq_of_mem hf, alistPut_eq_of_get hg, setAdd_eq_of_mem h2]

theorem funcStep_ok_descr {st st1 : CompleterState} {row : List String}
    (h : funcStep st row = .ok st1) :
    ∃ fn rest d inner, row = fn :: rest ∧ st.dbname = some d ∧
      alistGet d st.functionsMeta = some inner ∧
      st1.dbname = st.dbname ∧
      st1.functionsMeta = alistPut d (setAdd inner fn) st.functionsMeta ∧
      st1.all_completions = setAdd st.all_completions fn := by
  match row with
  | [] => exact absurd h (by simp [funcStep])
  | fn :: rest =>
    obtain ⟨sc, dbs, dbn, tbls, vws, fm, ac⟩ := st
    unfold funcStep at h
    dsimp only at h
    cases dbn with
    | none => cases h
    | some d =>
      dsimp only at h
      cases hg : alistGet d fm with
      | none => rw [hg] at h; cases h
      | some inner =>
        rw [hg] at h
        dsimp only at h
        cases h
        exact ⟨fn, rest, d, inner, rfl, rfl, hg, rfl, rfl, rfl⟩

theorem funcStep_ok_sat_self {st st1 : CompleterState} {row : List String}
    (h : funcStep st row = .ok st1) : FuncSat st1 row := by
  obtain ⟨fn, rest, d, inner, hrow, hd, hg, hdb, hfm, hac⟩ := funcStep_ok_descr h
  subst hrow
  refine ⟨⟨d, setAdd inner fn, ?_, ?_, mem_setAdd_self _ _⟩, ?_⟩
  · rw [hdb, hd]
  · rw [hfm, alistGet_put_self]
  · rw [hac]; exact mem_setAdd_self _ _

theorem funcStep_preserves_sat {st st1 : CompleterState} {row row' : List String}
    (hs : FuncSat st row') (h : funcStep st row = .ok st1) : FuncSat st1 row' := by
  match row' with
  | [] => exact absurd hs id
  | fn' :: rest' =>
    obtain ⟨⟨d', inner', hd', hg', hf'⟩, h2⟩ := hs
    obtain ⟨fn, rest, d, inner, hrow, hd, hg, hdb, hfm, hac⟩ := funcStep_ok_descr h
    refine ⟨⟨d, setAdd inner fn, hdb.trans hd, ?_, ?_⟩, ?_⟩
    · rw [hfm, alistGet_put_self]
    · have hdd : d' = d := Option.some.inj (hd'.symm.trans hd)
      have hii : inner' = inner := Option.some.inj ((hdd ▸ hg').symm.trans hg)
      exact mem_setAdd_of_mem _ (hii ▸ hf')
    · rw [hac]; exact mem_setAdd_of_mem _ h2

theorem funcLoop_preserves_sat {rows : List (List String)} {st st' : CompleterState}
    {row' : List String}
    (hs : FuncSat st row') (h : funcLoop rows st = .ok st') : FuncSat st' row' := by
  induction rows generalizing st with
  | nil => cases h; exact hs
  | cons row rest ih =>
    unfold funcLoop at h
    cases hstep : funcStep st row with
    | error e => rw [hstep] at h; cases h
    | ok st1 =>
      rw [hstep] at h
      exact ih (funcStep_preserves_sat hs hstep) h

theorem funcLoop_ok_sat {rows : List (List String)} {st st' : CompleterState}
    (h : funcLoop rows st = .ok st') : ∀ row ∈ rows, FuncSat st' row := by
  induction rows generalizing st with
  | nil => intro row hrow; cases hrow
  | cons row rest ih =>
    intro r hr
    unfold funcLoop at h
    cases hstep : funcStep st row with
    | error e => rw [hstep] at h; cases h
    | ok st1 =>
      rw [hstep] at h
      rcases List.mem_cons.mp hr with rfl | hr'
      · exact funcLoop_preserves_sat (funcStep_ok_sat_self hstep) h
      · exact ih h r hr'

theorem funcLoop_fixed {rows : List (List String)} {st' : CompleterState}
    (h : ∀ row ∈ rows, FuncSat st' row) : funcLoop rows st' = .ok st' := by
  induction rows with
  | nil => rfl
  | cons row rest ih =>
    unfold funcLoop
    rw [funcStep_of_sat (h row (List.mem_cons_self _ _))]
    exact ih (fun r hr => h r (List.mem_cons_of_mem _ hr))

theorem funcLoop_idem {rows : List (List String)} {st st' : CompleterState}
    (h : funcLoop rows st = .ok st') : funcLoop rows st' = .ok st' :=
  funcLoop_fixed (funcLoop_ok_sat h)

theorem extend_schemata_idem (st : CompleterState) (s : Option String) :
    extend_schemata (extend_schemata st s) s = extend_schemata st s := by
  cases s with
  | none => rfl
  | some sch =>
    unfold extend_schemata
    dsimp only
    rw [alistPut_eq_of_get (alistGet_put_self sch [] st.tables),
        alistPut_eq_of_get (alistGet_put_self sch [] st.views),
        alistPut_eq_of_get (alistGet_put_self sch [] st.functionsMeta),
        setUpdate_eq_of_forall_mem (fun y hy => mem_setUpdate_of_mem_arg _ hy)]

/-- C9 counterexample: `extend_database_names` is not idempotent — repeating
the call with the same data appends the database names a second time, so the
`databases` component of the completion index differs from its state after the
first invocation. -/
theorem extend_database_names_not_idempotent :
    extend_database_names ⟨[], [], some "", [], [], [], []⟩ (Iter.ok ["main"]) =
      .ok ⟨[], ["main"], some "", [], [], [], []⟩ ∧
    extend_database_names ⟨[], ["main"], some "", [], [], [], []⟩ (Iter.ok ["main"]) =
      .ok ⟨[], ["main", "main"], some "", [], [], [], []⟩ ∧
    (⟨[], ["main", "main"], some "", [], [], [], []⟩ : CompleterState) ≠
      ⟨[], ["main"], some "", [], [], [], []⟩ := by
  refine ⟨rfl, rfl, ?_⟩
  decide

/-- C9 (amended): `extend_schemata`, `extend_relations`, `extend_functions`
and `extend_special_commands` are idempotent by key — invoking the operation a
second time with the same argument data leaves the completion index
(`databases`, `dbmetadata`, `all_completions`) equal to its state after the
first invocation (`extend_special_commands` never touches those components at
all).  `extend_database_names` and `extend_columns` are **not** idempotent:
repeating them appends duplicate database names, respectively duplicate
column entries. -/
theorem extend_ops_idempotent :
    (∀ (st : CompleterState) (it : Iter (List String)) (kind : RelKind) (st' : CompleterState),
       extend_relations st it kind = .ok st' → extend_relations st' it kind = .ok st') ∧
    (∀ (st : CompleterState) (it : Iter (List String)) (st' : CompleterState),
       extend_functions st it = .ok st' → extend_functions st' it = .ok st') ∧
    (∀ (st : CompleterState) (s : Option String),
       extend_schemata (extend_schemata st s) s = extend_schemata st s) ∧
    (∀ (st : CompleterState) (it : Iter String) (st' : CompleterState),
       extend_special_commands st it = .ok st' →
         st'.databases = st.databases ∧ st'.tables = st.tables ∧ st'.views = st.views ∧
         st'.functionsMeta = st.functionsMeta ∧ st'.all_completions = st.all_completions) ∧
    (∃ st1 st2 : CompleterState,
       extend_columns ⟨[], [], some "m", [("m", [("t", ["*"])])], [], [], []⟩
           (Iter.ok [["t", "a"]]) .tables = .ok st1 ∧
       extend_columns st1 (Iter.ok [["t", "a"]]) .tables = .ok st2 ∧
       st2 ≠ st1) := by
  refine ⟨?_, ?_, extend_schemata_idem, ?_, ?_⟩
  · intro st it kind st' h
    cases it with
    | ok xs => exact relLoop_idem h
    | fails pre => exact relLoop_idem h
  · intro st it st' h
    cases it with
    | ok xs => exact funcLoop_idem h
    | fails pre => exact funcLoop_idem h
  · intro st it st' h
    cases it with
    | ok xs => cases h; exact ⟨rfl, rfl, rfl, rfl, rfl⟩
    | fails pre => cases h
  · refine ⟨⟨[], [], some "m", [("m", [("t", ["*", "a"])])], [], [], ["a"]⟩,
      ⟨[], [], some "m", [("m", [("t", ["*", "a", "a"])])], [], [], ["a"]⟩, ?_, ?_, ?_⟩
    · rfl
    · rfl
    · decide

/-- C9 witness: a concrete repeated `extend_relations` call, via the
idempotency theorem. -/
theorem extend_ops_idempotent_witness :
    extend_relations ⟨[], [], some "m", [("m", [("t", ["*"])])], [], [], ["t"]⟩
        (Iter.ok [["t"]]) .tables =
      .ok ⟨[], [], some "m", [("m", [("t", ["*"])])], [], [], ["t"]⟩ :=
  extend_ops_idempotent.1 ⟨[], [], some "m", [("m", [])], [], [], []⟩ (Iter.ok [["t"]]) .tables
    ⟨[], [], some "m", [("m", [("t", ["*"])])], [], [], ["t"]⟩ (by rfl)

/-! ## C4 — refresh entry point: at most one active refresh -/

/-- C4: invoking `refresh()` while `is_refreshing()` is true sets the restart
flag and returns immediately with the "Auto-completion refresh restarted."
status tuple, spawning no second worker; and along every event trace from a
fresh coordinator at most one background worker thread is alive at any
moment. -/
theorem refresh_at_most_one (s : RefresherState) (m : Bool) (events : List RefreshEvent) :
    (is_refreshing s = true →
      refresh s m =
        ({ s with restartFlag := true },
         [(none, none, none, some "Auto-completion refresh restarted.")], 0)) ∧
    (runRefresher events).aliveWorkers ≤ 1 := by
  constructor
  · intro h
    unfold refresh
    rw [if_pos h]
  · have key : ∀ (evs : List RefreshEvent) (s0 : RefresherState), s0.aliveWorkers ≤ 1 →
        (evs.foldl refresherStep s0).aliveWorkers ≤ 1 := by
      intro evs
      induction evs with
      | nil => intro s0 h0; exact h0
      | cons e rest ih =>
        intro s0 h0
        refine ih _ ?_
        cases e with
        | workerExit =>
          show s0.aliveWorkers - 1 ≤ 1
          omega
        | call m' =>
          show (refresh s0 m').1.aliveWorkers ≤ 1
          unfold refresh
          by_cases hr : is_refreshing s0 = true
          · rw [if_pos hr]; exact h0
          · rw [if_neg hr]
            have hz : s0.aliveWorkers = 0 := by
              simp [is_refreshing] at hr
              omega
            by_cases hm : m' = true
            · rw [if_pos hm]; exact h0
            · rw [if_neg hm]
              show s0.aliveWorkers + 1 ≤ 1
              omega
    exact key events initRefresher (by decide)

/-- C4 witness: a call on a coordinator with a live worker, through the
theorem. -/
theorem refresh_at_most_one_witness :
    refresh ⟨1, false⟩ false =
      (⟨1, true⟩, [(none, none, none, some "Auto-completion refresh restarted.")], 0) ∧
    (runRefresher [.call false, .call false]).aliveWorkers ≤ 1 :=
  ⟨(refresh_at_most_one ⟨1, false⟩ false [.call false, .call false]).1 rfl,
   (refresh_at_most_one ⟨1, false⟩ false [.call false, .call false]).2⟩

/-! ## C5 — the background refresh loop -/

theorem runLoop_restart (steps : List StepFn) (c : CompleterState) (fl : List Bool)
    {c' : CompleterState} {fl' : List Bool}
    (hp : runPass steps c fl = .ok (c', fl', true)) :
    runLoop steps c fl = runLoop steps c' fl' := by
  rw [runLoop.eq_def]
  split
  · rename_i e heq; rw [hp] at heq; cases heq
  · rename_i c'' fl'' heq
    rw [hp] at heq
    cases heq
    rfl
  · rename_i c'' fl'' heq
    rw [hp] at heq
    cases heq

theorem runLoop_done (steps : List StepFn) (c : CompleterState) (fl : List Bool)
    {c' : CompleterState} {fl' : List Bool}
    (hp : runPass steps c fl = .ok (c', fl', false)) :
    runLoop steps c fl = .ok c' := by
  rw [runLoop.eq_def]
  split
  · rename_i e heq; rw [hp] at heq; cases heq
  · rename_i c'' fl'' heq
    rw [hp] at heq
    cases heq
  · rename_i c'' fl'' heq
    rw [hp] at heq
    cases heq
    rfl

theorem runLoop_two (steps : List StepFn) (c : CompleterState) (fl : List Bool)
    {c1 cf : CompleterState} {fl1 fl2 : List Bool}
    (h1 : runPass steps c fl = .ok (c1, fl1, true))
    (h2 : runPass steps c1 fl1 = .ok (cf, fl2, false)) :
    runLoop steps c fl = .ok cf := by
  rw [runLoop_restart steps c fl h1, runLoop_done steps c1 fl1 h2]

/-- The refresh environment of the C5 concrete runs: one database `main`, one
table `t` with one column `a`, no functions, one special command. -/
def c5Env : RefreshEnv := ⟨.ok ["main"], some "main", .ok [["t", "a"]], .ok [], ["help"]⟩

/-- The completer after the aborted first pass (restart seen after the first
step). -/
def c5Mid : CompleterState :=
  ((runPass (refreshSteps c5Env) initCompleter [true]).toOption.map (fun t => t.1)).getD
    initCompleter

/-- The completer after the restarted full pass. -/
def c5Fin : CompleterState :=
  ((runPass (refreshSteps c5Env) c5Mid []).toOption.map (fun t => t.1)).getD initCompleter

/-- The completer after one clean pass with no restart. -/
def c5Clean : CompleterState :=
  ((runPass (refreshSteps c5Env) initCompleter []).toOption.map (fun t => t.1)).getD initCompleter

/-- C5 counterexample: with a restart requested after the first step, the
engine handed to the callbacks is **not** the result of exactly one complete
pass of the refresher steps over the fresh engine — the aborted pass already
extended the database names, and the restart re-runs all steps on the same
engine instance, duplicating them. -/
theorem bg_refresh_restart_not_single_pass :
    bg_refresh c5Env [true] = .ok c5Fin ∧ c5Fin.databases = ["main", "main"] ∧
    bg_refresh c5Env [] = .ok c5Clean ∧ c5Clean.databases = ["main"] ∧
    bg_refresh c5Env [true] ≠ bg_refresh c5Env [] := by
  have h1 : runPass (refreshSteps c5Env) initCompleter [true] = .ok (c5Mid, [], true) := rfl
  have h2 : runPass (refreshSteps c5Env) c5Mid [] = .ok (c5Fin, [], false) := rfl
  have h3 : runPass (refreshSteps c5Env) initCompleter [] = .ok (c5Clean, [], false) := rfl
  have hA : bg_refresh c5Env [true] = .ok c5Fin := runLoop_two _ _ _ h1 h2
  have hB : bg_refresh c5Env [] = .ok c5Clean := runLoop_done _ _ _ h3
  refine ⟨hA, rfl, hB, rfl, ?_⟩
  rw [hA, hB]
  intro hEq
  have hfc : c5Fin = c5Clean := Except.ok.inj hEq
  have : (["main", "main"] : List String) = ["main"] := by
    have := congrArg CompleterState.databases hfc
    rwa [show c5Fin.databases = ["main", "main"] from rfl,
         show c5Clean.databases = ["main"] from rfl] at this
  cases this

/-- C5 (amended): `_bg_refresh` runs the ordered refresher steps against a
fresh Candidate Engine instance (`bg_refresh` starts from `initCompleter`,
never the live completer); whenever the restart flag is found set after a
step, the flag is cleared and the step sequence restarts from step 1 — on the
same engine instance, which is not reset.  Consequently the engine finally
passed to the callbacks is the result of one final uninterrupted complete
pass of all steps (from some intermediate state), though effects of aborted
earlier passes may persist in it. -/
theorem bg_refresh_final_pass (env : RefreshEnv) (fl : List Bool)
    (steps : List StepFn) (c cf : CompleterState) :
    (bg_refresh env fl = runLoop (refreshSteps env) initCompleter fl) ∧
    (runLoop steps c fl = .ok cf →
      ∃ c0 fl0 fl1, runPass steps c0 fl0 = .ok (cf, fl1, false)) := by
  constructor
  · rfl
  · have main : ∀ n (fl0 : List Bool), fl0.length ≤ n → ∀ c0,
        runLoop steps c0 fl0 = .ok cf →
        ∃ cs fs fl1, runPass steps cs fs = .ok (cf, fl1, false) := by
      intro n
      induction n with
      | zero =>
        intro fl0 hlen c0 h
        rw [runLoop.eq_def] at h
        split at h
        · cases h
        · rename_i c' fl' heq
          have := runPass_restart_length steps c0 fl0 c' fl' heq
          omega
        · rename_i c' fl' heq
          cases h
          exact ⟨c0, fl0, fl', heq⟩
      | succ n ih =>
        intro fl0 hlen c0 h
        rw [runLoop.eq_def] at h
        split at h
        · cases h
        · rename_i c' fl' heq
          have hlt := runPass_restart_length steps c0 fl0 c' fl' heq
          exact ih fl' (by omega) c' h
        · rename_i c' fl' heq
          cases h
          exact ⟨c0, fl0, fl', heq⟩
    intro h
    exact main fl.length fl le_rfl c h

/-- C5 witness: a trivial loop run, through the theorem. -/
theorem bg_refresh_final_pass_witness :
    ∃ cs fs fl1, runPass ([] : List StepFn) cs fs = .ok (initCompleter, fl1, false) :=
  (bg_refresh_final_pass ⟨.ok [], none, .ok [], .ok [], []⟩ [] [] initCompleter initCompleter).2
    (runLoop_done [] initCompleter [] rfl)

/-! ## C6 — the execute lookup discipline -/

/-- C6: `execute` looks the parsed command token up by exact (case-sensitive)
key first and then by its lower-cased form; a command registered as
case-sensitive that is reached only via the lower-cased fallback is treated
as not found; and `execute` raises `CommandNotFound` if and only if no
applicable command is found by either lookup. -/
theorem executeSpecial_eq_exact {cmds : Registry} {sql command : String}
    {verbosity : Verbosity} {arg : String} {sc : SpecialCommand}
    (hp : parse_special_command sql = (command, verbosity, arg))
    (hx : alistGet command cmds = some sc) :
    executeSpecial cmds sql = .ok (dispatchFor sc sql arg (decide (verbosity = .verbose))) := by
  unfold executeSpecial
  rw [hp]
  dsimp only
  simp only [hx, Option.isNone_some, Bool.false_eq_true, false_and, if_false]

theorem executeSpecial_eq_lower {cmds : Registry} {sql command : String}
    {verbosity : Verbosity} {arg : String} {sc : SpecialCommand}
    (hp : parse_special_command sql = (command, verbosity, arg))
    (hx : alistGet command cmds = none)
    (hy : alistGet (strLower command) cmds = some sc) :
    executeSpecial cmds sql =
      if sc.case_sensitive then .error ("Command not found: " ++ command)
      else .ok (dispatchFor sc sql arg (decide (verbosity = .verbose))) := by
  unfold executeSpecial
  rw [hp]
  dsimp only
  simp only [hx, hy, Option.isNone_some, Option.isNone_none, Bool.false_eq_true, and_false,
    if_false]

theorem executeSpecial_eq_notfound {cmds : Registry} {sql command : String}
    {verbosity : Verbosity} {arg : String}
    (hp : parse_special_command sql = (command, verbosity, arg))
    (hx : alistGet command cmds = none)
    (hy : alistGet (strLower command) cmds = none) :
    executeSpecial cmds sql = .error "CommandNotFound" := by
  unfold executeSpecial
  rw [hp]
  dsimp only
  simp only [hx, hy, Option.isNone_none, and_self, if_true]

theorem executeSpecial_lookup (cmds : Registry) (sql : String) :
    (∀ sc, alistGet (parse_special_command sql).1 cmds = some sc →
       executeSpecial cmds sql =
         .ok (dispatchFor sc sql (parse_special_command sql).2.2
               (decide ((parse_special_command sql).2.1 = Verbosity.verbose)))) ∧
    (alistGet (parse_special_command sql).1 cmds = none →
      ∀ sc, alistGet (strLower (parse_special_command sql).1) cmds = some sc →
        (sc.case_sensitive = true → ∃ e, executeSpecial cmds sql = .error e) ∧
        (sc.case_sensitive = false →
          executeSpecial cmds sql =
            .ok (dispatchFor sc sql (parse_special_command sql).2.2
                  (decide ((parse_special_command sql).2.1 = Verbosity.verbose))))) ∧
    ((∃ e, executeSpecial cmds sql = .error e) ↔
      (alistGet (parse_special_command sql).1 cmds = none ∧
       ∀ sc, alistGet (strLower (parse_special_command sql).1) cmds = some sc →
         sc.case_sensitive = true)) := by
  rcases hp : parse_special_command sql with ⟨command, verbosity, arg⟩
  dsimp only
  cases hx : alistGet command cmds with
  | some sc0 =>
    refine ⟨?_, ?_, ?_⟩
    · intro sc hsc
      cases hsc
      exact executeSpecial_eq_exact hp hx
    · intro hnone
      cases hnone
    · constructor
      · rintro ⟨e, he⟩
        rw [executeSpecial_eq_exact hp hx] at he
        cases he
      · rintro ⟨hnone, -⟩
        cases hnone
  | none =>
    cases hy : alistGet (strLower command) cmds with
    | none =>
      refine ⟨?_, ?_, ?_⟩
      · intro sc hsc
        cases hsc
      · intro _ sc hsc
        cases hsc
      · constructor
        · intro _
          exact ⟨rfl, fun sc hsc => by cases hsc⟩
        · intro _
          exact ⟨_, executeSpecial_eq_notfound hp hx hy⟩
    | some sc0 =>
      refine ⟨?_, ?_, ?_⟩
      · intro sc hsc
        cases hsc
      · intro _ sc hsc
        cases hsc
        constructor
        · intro hcs
          exact ⟨_, by rw [executeSpecial_eq_lower hp hx hy, if_pos hcs]⟩
        · intro hcs
          rw [executeSpecial_eq_lower hp hx hy, if_neg]
          simp [hcs]
      · constructor
        · rintro ⟨e, he⟩
          rw [executeSpecial_eq_lower hp hx hy] at he
          refine ⟨rfl, fun sc hsc => ?_⟩
          cases hsc
          by_contra hcs
          have hfalse : sc0.case_sensitive = false := by
            cases hval : sc0.case_sensitive
            · rfl
            · exact absurd hval hcs
          rw [if_neg (by simp [hfalse])] at he
          cases he
        · rintro ⟨-, hall⟩
          have hcs := hall sc0 rfl
          exact ⟨_, by rw [executeSpecial_eq_lower hp hx hy, if_pos hcs]⟩

/-- A concrete registry for the C6 witness: the (case-insensitive) `help`
command with its aliases and the case-sensitive `pager` command, as the source
registers them. -/
def c6Registry : Registry :=
  register_special_command
    (register_special_command [] "show_help" "help" "\\?" "Show this help." .no_query false false
      ["\\?", "?"])
    "set_pager" "pager" "\\P [command]" "Set PAGER. Print the query results via PAGER."
    .parsed_query false true ["\\P"]

/-- C6 witness: `PAGER` reaches the case-sensitive `pager` entry only via the
lower-cased fallback and is rejected; `help` is found by exact lookup and is
dispatched as a no-argument command. -/
theorem executeSpecial_lookup_witness :
    (∃ e, executeSpecial c6Registry "PAGER" = .error e) ∧
    executeSpecial c6Registry "help" =
      .ok (dispatchFor
            ⟨"show_help", "help", "\\?", "Show this help.", .no_query, false, false⟩
            "help" "" false) :=
  ⟨((executeSpecial_lookup c6Registry "PAGER").2.1 (by decide)
      ⟨"set_pager", "pager", "\\P [command]", "Set PAGER. Print the query results via PAGER.",
        .parsed_query, false, true⟩ (by decide)).1 rfl,
   (executeSpecial_lookup c6Registry "help").1
      ⟨"show_help", "help", "\\?", "Show this help.", .no_query, false, false⟩ (by decide)⟩

/-! ## C7 — favorite queries with a `?` marker -/

theorem splitOnCharL_no_sep {sep : Char} {l : List Char} (h : sep ∉ l) :
    splitOnCharL sep l = [l] := by
  induction l with
  | nil => rfl
  | cons c rest ih =>
    have hc : c ≠ sep := fun hcc => h (hcc ▸ List.mem_cons_self _ _)
    have hrest : sep ∉ rest := fun hr => h (List.mem_cons_of_mem _ hr)
    unfold splitOnCharL
    rw [ih hrest]
    simp [hc]

theorem string_mk_data (s : String) : String.mk s.data = s := rfl

theorem sqlparseSplit_single {query : String} (hsemi : ';' ∉ query.data)
    (htrim : stripCharsL pySpace query.data = query.data) (hne : query ≠ "") :
    sqlparseSplit query = [query] := by
  unfold sqlparseSplit
  rw [splitOnCharL_no_sep hsemi]
  simp only [List.map_cons, List.map_nil, htrim, string_mk_data]
  simp [List.filter, hne]

theorem findSub_single_char {ch : Char} :
    ∀ (hay : List Char) (i : Nat), (findSub hay [ch] i).isSome = true ↔ ch ∈ hay := by
  intro hay
  induction hay with
  | nil =>
    intro i
    rw [findSub]
    simp [startsWithAt]
  | cons d ds ih =>
    intro i
    rw [findSub]
    by_cases hcd : ch = d
    · simp [startsWithAt, hcd]
    · have hsw : startsWithAt [ch] (d :: ds) = false := by
        simp [startsWithAt, hcd]
      rw [if_neg (by rw [hsw]; simp)]
      show (findSub ds [ch] (i + 1)).isSome = true ↔ ch ∈ d :: ds
      rw [ih (i + 1)]
      simp [hcd]

theorem strContains_of_count_one {query : String} (hq : strCountChar query '?' = 1) :
    strContains query "?" = true := by
  have hmem : '?' ∈ query.data := by
    have h0 : 0 < query.data.count '?' := by
      unfold strCountChar at hq
      omega
    exact List.count_pos_iff.mp h0
  unfold strContains pyFind
  show (findSub query.data ("?").data 0).isSome = true
  have h2 : ("?" : String).data = ['?'] := rfl
  rw [h2]
  exact (findSub_single_char query.data 0).mpr hmem

theorem rstrip_semi_of_not_mem {s : String} (h : ';' ∉ s.data) :
    pyRstripChars [';'] s = s := by
  unfold pyRstripChars
  have hdrop : s.data.reverse.dropWhile (fun c => c ∈ [';']) = s.data.reverse := by
    cases hrev : s.data.reverse with
    | nil => rfl
    | cons c cs =>
      have hcmem : c ∈ s.data := by
        have : c ∈ s.data.reverse := by rw [hrev]; exact List.mem_cons_self _ _
        exact List.mem_reverse.mp this
      have hc : ¬ (c ∈ [';']) := by
        simp only [List.mem_singleton]
        intro hcc
        exact h (hcc ▸ hcmem)
      have hcne : c ≠ ';' := by simpa using hc
      rw [List.dropWhile_cons, if_neg (by simp [hcne])]
  rw [hdrop, List.reverse_reverse, string_mk_data]

/-- The `(title, rows, headers, status)` tuple one statement of a favorite
query yields, given the cursor's description of it. -/
def favTuple (cm : CursorModel) (sql : String) (verbose : Bool) : PyResult :=
  match cm.describeOf sql with
  | some hs =>
    { title := if verbose then some ("> " ++ sql) else none, rows := some .fromCursor,
      headers := some hs, status := none }
  | none =>
    { title := if verbose then some ("> " ++ sql) else none, rows := none, headers := none,
      status := none }

/-- C7 counterexample: the favorite query `select * from t where a like ?`
carries a single `?` marker, yet invoking it with zero substitution arguments
propagates the database binding exception out of `execute_favorite_query`
rather than producing a result tuple with a descriptive error status — the
`?` branch passes the arguments to the cursor as bind parameters. -/
theorem favorite_query_zero_args_raises :
    strCountChar "select * from t where a like ?" '?' = 1 ∧
    (∃ e, execute_favorite_query ⟨fun _ => some ["a"]⟩
        [("q", "select * from t where a like ?")] "q" false = .error e) :=
  ⟨rfl, ⟨_, rfl⟩⟩

/-- C7 (amended): for every favorite query whose text contains a single `?`
marker (and no statement separator), the arguments are passed to the cursor
as bind parameters with the query text unchanged: invoking it with zero or
with more than one argument propagates the database binding error (an
exception, not a status tuple), and invoking it with exactly one argument
executes the query text unchanged, exactly once, with that argument bound. -/
theorem favorite_query_question_binding
    (cm : CursorModel) (favs : List (String × String)) (name query : String)
    (args : List String) (verbose : Bool)
    (hfav : alistGet name favs = some query)
    (hq : strCountChar query '?' = 1)
    (hsemi : ';' ∉ query.data)
    (htrim : stripCharsL pySpace query.data = query.data)
    (hne : query ≠ "") :
    (args = [] ∨ 2 ≤ args.length → ∃ e, favQueryBody cm favs name args verbose = .error e) ∧
    (∀ a, args = [a] →
      favQueryBody cm favs name args verbose =
        .ok ([favTuple cm query verbose], [(query, [a])])) := by
  have hsplit : sqlparseSplit query = [query] := sqlparseSplit_single hsemi htrim hne
  have hcontains : strContains query "?" = true := strContains_of_count_one hq
  have hbody : favQueryBody cm favs name args verbose =
      runStatements cm [query] args verbose := by
    unfold favQueryBody
    rw [hfav]
    dsimp only
    rw [if_pos hcontains, hsplit]
  have hrstrip : pyRstripChars [';'] query = query := rstrip_semi_of_not_mem hsemi
  constructor
  · intro hargs
    rw [hbody]
    unfold runStatements
    dsimp only
    rw [hrstrip]
    unfold cursorExec
    rw [hq]
    have hlen : 1 ≠ args.length := by
      rcases hargs with rfl | h2
      · simp
      · omega
    rw [if_neg hlen]
    exact ⟨_, rfl⟩
  · rintro a rfl
    rw [hbody]
    unfold runStatements
    dsimp only
    rw [hrstrip]
    unfold cursorExec
    rw [hq]
    rw [if_pos (show (1 : Nat) = [a].length from rfl)]
    rfl

/-- C7 witness: the amended theorem at the claim's own example query, invoked
with exactly one argument. -/
theorem favorite_query_question_binding_witness :
    favQueryBody ⟨fun _ => some ["a"]⟩ [("q", "select * from t where a like ?")] "q" ["x"] false =
      .ok ([favTuple ⟨fun _ => some ["a"]⟩ "select * from t where a like ?" false],
           [("select * from t where a like ?", ["x"])]) :=
  (favorite_query_question_binding ⟨fun _ => some ["a"]⟩
      [("q", "select * from t where a like ?")] "q" "select * from t where a like ?" ["x"] false
      rfl rfl (by decide) (by decide) (by decide)).2 "x" rfl

/-! ## C8 — USING(...) drop_unique column suggestions -/

theorem mem_setAdd_iff {acc : List String} {x c : String} :
    c ∈ setAdd acc x ↔ c ∈ acc ∨ c = x := by
  by_cases hx : x ∈ acc
  · rw [setAdd_eq_of_mem hx]
    constructor
    · exact Or.inl
    · rintro (h | rfl)
      · exact h
      · exact hx
  · simp [setAdd, hx]

theorem mem_foldl_setAdd (l : List String) : ∀ (acc : List String) (c : String),
    c ∈ l.foldl setAdd acc ↔ c ∈ acc ∨ c ∈ l := by
  induction l with
  | nil => intro acc c; simp
  | cons x xs ih =>
    intro acc c
    show c ∈ xs.foldl setAdd (setAdd acc x) ↔ _
    rw [ih (setAdd acc x) c, mem_setAdd_iff, List.mem_cons]
    tauto

theorem mem_firstKeys_iff (l : List String) (c : String) : c ∈ firstKeys l ↔ c ∈ l := by
  unfold firstKeys
  rw [mem_foldl_setAdd]
  simp

theorem count_flatten_eq_countP (c : String) : ∀ (L : List (List String)),
    (∀ l ∈ L, l.Nodup) → L.flatten.count c = L.countP (fun l => decide (c ∈ l)) := by
  intro L
  induction L with
  | nil => intro _; rfl
  | cons l ls ih =>
    intro h
    rw [List.flatten_cons, List.count_append, List.countP_cons,
      ih (fun x hx => h x (List.mem_cons_of_mem _ hx))]
    have hl := h l (List.mem_cons_self _ _)
    by_cases hm : c ∈ l
    · rw [List.count_eq_one_of_mem hl hm]
      simp [hm, Nat.add_comm]
    · rw [List.count_eq_zero.mpr hm]
      simp [hm]

/-- C8: for every column suggestion marked `drop_unique` (a `USING (...)`
join clause), given that no single scoped table's column list contains a
duplicate name, the offered column candidates are exactly the column names
that occur in more than one of the scoped tables' column lists, with the
wildcard `*` always excluded; in particular for `orders(id, total)` joined
with `customers(id, name)`, exactly `id` is offered. -/
theorem dropUnique_cols_spec (st : CompleterState) (tables : List TableRef)
    (hnd : ∀ tbl ∈ tables, (colsOfTbl st tbl).Nodup) :
    (∀ c, c ∈ dropUniqueCols st tables ↔
      (c ≠ "*" ∧ 1 < (tables.map (colsOfTbl st)).countP (fun cols => decide (c ∈ cols)))) ∧
    dropUniqueCols
      ⟨[], [], some "main",
        [("main", [("orders", ["*", "id", "total"]), ("customers", ["*", "id", "name"])])],
        [], [], []⟩
      [(none, "orders", some "o"), (none, "customers", some "c")] = ["id"] := by
  constructor
  · intro c
    have hcount : (populate_scoped_cols st tables).count c =
        (tables.map (colsOfTbl st)).countP (fun cols => decide (c ∈ cols)) := by
      unfold populate_scoped_cols
      refine count_flatten_eq_countP c (tables.map (colsOfTbl st)) ?_
      intro l hl
      obtain ⟨tbl, htbl, rfl⟩ := List.mem_map.mp hl
      exact hnd tbl htbl
    unfold dropUniqueCols
    rw [List.mem_filter, mem_firstKeys_iff]
    constructor
    · rintro ⟨hmem, hcond⟩
      have h1 := (Bool.and_eq_true _ _).mp hcond
      refine ⟨by simpa using h1.2, ?_⟩
      rw [← hcount]
      have := h1.1
      simpa using this
    · rintro ⟨hstar, hcnt⟩
      rw [← hcount] at hcnt
      have hmem : c ∈ populate_scoped_cols st tables := by
        by_contra hno
        rw [List.count_eq_zero.mpr hno] at hcnt
        omega
      refine ⟨hmem, ?_⟩
      rw [Bool.and_eq_true]
      constructor
      · simpa using hcnt
      · simpa using hstar
  · rfl

/-- C8 witness: the theorem at the claim's own two-table example — `id` is
offered. -/
theorem dropUnique_cols_spec_witness :
    "id" ∈ dropUniqueCols
      ⟨[], [], some "main",
        [("main", [("orders", ["*", "id", "total"]), ("customers", ["*", "id", "name"])])],
        [], [], []⟩
      [(none, "orders", some "o"), (none, "customers", some "c")] :=
  ((dropUnique_cols_spec
      ⟨[], [], some "main",
        [("main", [("orders", ["*", "id", "total"]), ("customers", ["*", "id", "name"])])],
        [], [], []⟩
      [(none, "orders", some "o"), (none, "customers", some "c")] (by decide)).1 "id").mpr
    (by decide)

/-! ## C3 / C10 — fuzzy matching in find_matches -/

theorem subMatchEnd_isSome_iff : ∀ (t p : List Char) (pos : Nat),
    (subMatchEnd p t pos).isSome = true ↔ p.Sublist t := by
  intro t
  induction t with
  | nil =>
    intro p pos
    cases p with
    | nil => simp [subMatchEnd]
    | cons c cs => simp [subMatchEnd]
  | cons d ds ih =>
    intro p pos
    cases p with
    | nil => simp [subMatchEnd]
    | cons c cs =>
      rw [subMatchEnd]
      by_cases hcd : c = d
      · subst hcd
        rw [if_pos rfl, ih cs (pos + 1)]
        exact (List.cons_sublist_cons).symm
      · rw [if_neg hcd, ih (c :: cs) (pos + 1)]
        constructor
        · intro h
          exact h.cons d
        · intro h
          cases h with
          | cons _ h' => exact h'
          | cons₂ => exact absurd rfl hcd

theorem searchFrom_isSome_iff : ∀ (t : List Char) (c : Char) (cs : List Char) (i : Nat),
    (searchFrom c cs t i).isSome = true ↔ (c :: cs).Sublist t := by
  intro t
  induction t with
  | nil =>
    intro c cs i
    simp [searchFrom]
  | cons d ds ih =>
    intro c cs i
    rw [searchFrom]
    by_cases hcd : c = d
    · subst hcd
      rw [if_pos rfl]
      cases hsm : subMatchEnd cs ds (i + 1) with
      | some e =>
        have hsub : cs.Sublist ds := by
          rw [← subMatchEnd_isSome_iff ds cs (i + 1), hsm]
          rfl
        simp only [Option.isSome_some, true_iff]
        exact List.cons_sublist_cons.mpr hsub
      | none =>
        have hnsub : ¬ cs.Sublist ds := by
          rw [← subMatchEnd_isSome_iff ds cs (i + 1), hsm]
          simp
        rw [ih c cs (i + 1)]
        constructor
        · intro h
          exact h.cons c
        · intro h
          cases h with
          | cons _ h' => exact h'
          | cons₂ _ h' => exact absurd h' hnsub
    · rw [if_neg hcd, ih c cs (i + 1)]
      constructor
      · intro h
        exact h.cons d
      · intro h
        cases h with
        | cons _ h' => exact h'
        | cons₂ => exact absurd rfl hcd

theorem regexSearchFuzzy_isSome_iff (pat target : List Char) :
    (regexSearchFuzzy pat target).isSome = true ↔ pat.Sublist target := by
  cases pat with
  | nil => simp [regexSearchFuzzy]
  | cons c cs => exact searchFrom_isSome_iff target c cs 0

/-- `find_matches` with no casing policy, unfolded: the matched triples are
ranked by `keyLe` and projected to completions with offset `-len(last word)`. -/
theorem find_matches_no_casing (text : String) (collection : List String)
    (so fz : Bool) (pol : LastWordPolicy) :
    find_matches text collection so fz none pol =
      (pySortedKey (matchTriples (strLower (last_word text pol)) collection so fz)).map
        (fun q => Completion.mk q.2.2 (-((strLower (last_word text pol)).length : Int))) := by
  unfold find_matches
  dsimp only
  rw [if_neg (by simp)]

theorem mem_matchTriples_fuzzy_text {t : String} {collection : List String} {item : String} :
    (∃ q ∈ matchTriples t collection false true, q.2.2 = item) ↔
      item ∈ collection ∧ t.data.Sublist (strLower item).data := by
  unfold matchTriples
  simp only [if_pos]
  constructor
  · rintro ⟨q, hq, hqi⟩
    obtain ⟨a, ha, hfa⟩ := List.mem_filterMap.mp hq
    cases hsearch : regexSearchFuzzy t.data (strLower a).data with
    | none => rw [hsearch] at hfa; cases hfa
    | some sl =>
      obtain ⟨s, len⟩ := sl
      rw [hsearch] at hfa
      cases hfa
      cases hqi
      have hmem : a ∈ collection := ((List.perm_insertionSort _ collection).mem_iff).mp ha
      refine ⟨hmem, ?_⟩
      rw [← regexSearchFuzzy_isSome_iff, hsearch]
      rfl
  · rintro ⟨hmem, hsub⟩
    rw [← regexSearchFuzzy_isSome_iff] at hsub
    cases hsearch : regexSearchFuzzy t.data (strLower item).data with
    | none => rw [hsearch] at hsub; cases hsub
    | some sl =>
      obtain ⟨s, len⟩ := sl
      refine ⟨(len, s, item), List.mem_filterMap.mpr ⟨item, ?_, ?_⟩, rfl⟩
      · exact ((List.perm_insertionSort _ collection).mem_iff).mpr hmem
      · rw [hsearch]

/-- C3: in fuzzy mode `find_matches` returns exactly the candidates whose
lower-cased text contains the characters of the input's (lower-cased) last
word as a subsequence; the candidates are ranked ascending by the key
`(matched span length, match start offset)` with ties broken by the
candidate's sort order (`keyLe`); and for input `usr` against
`users / user_roles / orders`, exactly `user_roles` and `users` are
returned. -/
theorem find_matches_fuzzy_spec (text : String) (collection : List String)
    (pol : LastWordPolicy) :
    (∀ item,
      item ∈ (find_matches text collection false true none pol).map Completion.text ↔
        item ∈ collection ∧
          (strLower (last_word text pol)).data.Sublist (strLower item).data) ∧
    List.Sorted keyLe
      (pySortedKey (matchTriples (strLower (last_word text pol)) collection false true)) ∧
    (find_matches text collection false true none pol =
      (pySortedKey (matchTriples (strLower (last_word text pol)) collection false true)).map
        (fun q => Completion.mk q.2.2 (-((strLower (last_word text pol)).length : Int)))) ∧
    (find_matches "usr" ["users", "user_roles", "orders"] false true none
        .most_punctuations).map Completion.text = ["user_roles", "users"] := by
  refine ⟨?_, ?_, find_matches_no_casing text collection false true pol, by decide⟩
  · intro item
    rw [find_matches_no_casing, List.map_map]
    have hmap : (Completion.text ∘ fun q : Nat × Nat × String =>
        Completion.mk q.2.2 (-((strLower (last_word text pol)).length : Int))) =
        (fun q : Nat × Nat × String => q.2.2) := rfl
    rw [hmap]
    rw [List.mem_map]
    constructor
    · rintro ⟨q, hq, hqi⟩
      exact mem_matchTriples_fuzzy_text.mp
        ⟨q, ((List.perm_insertionSort keyLe _).mem_iff).mp hq, hqi⟩
    · intro h
      obtain ⟨q, hq, hqi⟩ := mem_matchTriples_fuzzy_text.mpr h
      exact ⟨q, ((List.perm_insertionSort keyLe _).mem_iff).mpr hq, hqi⟩
  · exact List.sorted_insertionSort keyLe _

/-- C10: when the extracted last word of the input is empty, fuzzy
`find_matches` yields a completion for every candidate in the collection —
none is filtered out — and every completion carries insertion offset 0. -/
theorem find_matches_empty_word (text : String) (collection : List String)
    (pol : LastWordPolicy) (h : last_word text pol = "") :
    (∀ item ∈ collection,
      Completion.mk item 0 ∈ find_matches text collection false true none pol) ∧
    (find_matches text collection false true none pol).length = collection.length ∧
    (∀ cmp ∈ find_matches text collection false true none pol, cmp.position = 0) := by
  have ht : strLower (last_word text pol) = "" := by rw [h]; rfl
  have hdata : (strLower (last_word text pol)).data = [] := by rw [ht]
  have hlen0 : ((strLower (last_word text pol)).length : Int) = 0 := by rw [ht]; rfl
  rw [find_matches_no_casing]
  have hfm : ∀ l : List String,
      l.filterMap (fun item => some ((0, 0, item) : Nat × Nat × String)) =
        l.map (fun item => (0, 0, item)) := by
    intro l
    induction l with
    | nil => rfl
    | cons x xs ih => simp [List.filterMap_cons, ih]
  have htriples : matchTriples (strLower (last_word text pol)) collection false true =
      (pySortedStr collection).map (fun item => (0, 0, item)) := by
    unfold matchTriples
    rw [if_pos rfl]
    rw [show (fun item => match regexSearchFuzzy (strLower (last_word text pol)).data
          (strLower item).data with
        | some (s, len) => some ((len, s, item) : Nat × Nat × String)
        | none => none) = fun item => some ((0, 0, item) : Nat × Nat × String) from ?_]
    · exact hfm (pySortedStr collection)
    · funext item
      rw [hdata]
      rfl
  constructor
  · intro item hitem
    rw [htriples]
    have hmem : (0, 0, item) ∈ (pySortedStr collection).map (fun item => ((0, 0, item) : Nat × Nat × String)) :=
      List.mem_map.mpr ⟨item, ((List.perm_insertionSort _ collection).mem_iff).mpr hitem, rfl⟩
    have hmem2 : (0, 0, item) ∈ pySortedKey ((pySortedStr collection).map (fun item => ((0, 0, item) : Nat × Nat × String))) :=
      ((List.perm_insertionSort keyLe _).mem_iff).mpr hmem
    refine List.mem_map.mpr ⟨(0, 0, item), hmem2, ?_⟩
    rw [hlen0]
    rfl
  constructor
  · rw [List.length_map]
    unfold pySortedKey
    rw [(List.perm_insertionSort keyLe _).length_eq, htriples, List.length_map]
    unfold pySortedStr
    exact (List.perm_insertionSort _ collection).length_eq
  · intro cmp hcmp
    obtain ⟨q, hq, hqc⟩ := List.mem_map.mp hcmp
    rw [← hqc]
    show -((strLower (last_word text pol)).length : Int) = 0
    rw [hlen0]
    rfl

/-- C10 witness: the empty input over a two-element collection, through the
theorem. -/
theorem find_matches_empty_word_witness :
    Completion.mk "a" 0 ∈ find_matches "" ["b", "a"] false true none .most_punctuations ∧
    (find_matches "" ["b", "a"] false true none .most_punctuations).length = 2 :=
  ⟨(find_matches_empty_word "" ["b", "a"] .most_punctuations rfl).1 "a" (by decide),
   (find_matches_empty_word "" ["b", "a"] .most_punctuations rfl).2.1⟩

end Litecli
